import Mathlib

/-!
Verification of the siggen/fieldgen core (sources: `calc_signal.c`,
`detector_geometry.c`, `mjd_siggen.h` incl. the fieldgen `main`) against its
natural-language specification.

Shallow embedding conventions:
* C `float`/`double` arithmetic is embedded as exact rational (`ℚ`) arithmetic;
  geometry tests that need a real square root are embedded over `ℝ` as
  propositions.
* C arrays are `List ℚ` (signal buffers) or functions `ℕ → ℕ → ℚ` (the solver
  planes); in-place writes become `List.set` / pointwise function update.
* Fallible C calls (negative return codes) become `Option`/integer codes.
* Library routines whose numeric output does not influence any verified
  property (`sqrt`, `exp` from libm) are supplied by the environment record,
  so every theorem quantifies over their interpretation.
-/

/- ===================== small list/number helpers ===================== -/

/-- `signal[i] += x` on a `List ℚ` buffer (out-of-range writes are dropped,
which never happens at the embedded call sites). -/
def listAdd (s : List ℚ) (i : ℕ) (x : ℚ) : List ℚ :=
  s.set i (s.getD i 0 + x)

/-- C cast `(int)q` for a rational: truncation toward zero. -/
def truncQ (q : ℚ) : ℤ :=
  Int.tdiv q.num (q.den : ℤ)

/-- Descending index list `[k, k-1, ..., 1]` (the C loop
`for (j = k; j > 0; j--)`). -/
def descList (k : ℕ) : List ℕ :=
  (List.range' 1 k).reverse

/- ===================== rc_integrate (calc_signal.c:326) ===================== -/

/-- Body of the `tau < 1` branch of `rc_integrate` with distinct input and
output buffers: `s_out[j] = s_in[j-1]` along the given index list. -/
def rcShiftD (s_in : List ℚ) : List ℕ → List ℚ → List ℚ
  | [], s_out => s_out
  | j :: js, s_out => rcShiftD s_in js (s_out.set j (s_in.getD (j - 1) 0))

/-- Body of the `tau < 1` branch of `rc_integrate` when `s_out == s_in`
(single aliased buffer). -/
def rcShiftA : List ℕ → List ℚ → List ℚ
  | [], s => s
  | j :: js, s => rcShiftA js (s.set j (s.getD (j - 1) 0))

/-- Body of the `tau >= 1` branch of `rc_integrate` with distinct buffers:
`s = s_out[j-1] + (s_in_old - s_out[j-1])/tau; s_in_old = s_in[j];
s_out[j] = s`. -/
def rcLoopD (s_in : List ℚ) (tau : ℚ) : List ℕ → List ℚ → ℚ → List ℚ
  | [], s_out, _ => s_out
  | j :: js, s_out, s_in_old =>
      let s := s_out.getD (j - 1) 0 + (s_in_old - s_out.getD (j - 1) 0) / tau
      rcLoopD s_in tau js (s_out.set j s) (s_in.getD j 0)

/-- Body of the `tau >= 1` branch of `rc_integrate` when `s_out == s_in`:
`s_in_old` is read from the aliased buffer before the write to slot `j`. -/
def rcLoopA (tau : ℚ) : List ℕ → List ℚ → ℚ → List ℚ
  | [], s, _ => s
  | j :: js, s, s_in_old =>
      let v := s.getD (j - 1) 0 + (s_in_old - s.getD (j - 1) 0) / tau
      let nextOld := s.getD j 0
      rcLoopA tau js (s.set j v) nextOld

/-- `rc_integrate(s_in, s_out, tau, N)` with `s_out` a separate buffer
(`N = s_in.length`, as at the call sites). -/
def rc_integrate_d (s_in s_out : List ℚ) (tau : ℚ) : List ℚ :=
  if tau < 1 then
    (rcShiftD s_in (descList (s_in.length - 1)) s_out).set 0 0
  else
    rcLoopD s_in tau (List.range' 1 (s_in.length - 1)) (s_out.set 0 0) (s_in.getD 0 0)

/-- `rc_integrate(s, s, tau, N)` with the output aliased to the input, as in
the `get_signal` call site. -/
def rc_integrate_a (s : List ℚ) (tau : ℚ) : List ℚ :=
  if tau < 1 then
    (rcShiftA (descList (s.length - 1)) s).set 0 0
  else
    rcLoopA tau (List.range' 1 (s.length - 1)) (s.set 0 0) (s.getD 0 0)

/-- The RC integration exactly as claim C6 words it: if `tau >= 0.1` (tau in
units of the output time step) apply the recurrence
`y[j] = y[j-1] + (x[j-1] - y[j-1])/tau` with `y[0] = 0`, otherwise shift the
input right by one sample.  Used only to compare with `rc_integrate_d`. -/
def rcRecur (tau : ℚ) : ℚ → List ℚ → List ℚ
  | _, [] => []
  | y, a :: l =>
      let y2 := y + (a - y) / tau
      y2 :: rcRecur tau y2 l

def rc_per_claim (x : List ℚ) (tau : ℚ) : List ℚ :=
  match x with
  | [] => []
  | _ :: _ =>
    if tau ≥ 1 / 10 then 0 :: rcRecur tau 0 (x.take (x.length - 1))
    else 0 :: x.take (x.length - 1)

/- ===================== detector geometry (detector_geometry.c) ===================== -/

namespace Geom

/-- Geometry fields of `MJD_Siggen_Setup` used by `outside_detector`. -/
structure GeomSetup where
  zmax : ℝ
  rmax : ℝ
  top_bullet_radius : ℝ
  pc_length : ℝ
  pc_radius : ℝ
  taper_length : ℝ

/-- `outside_detector_cyl(pt, setup)` (detector_geometry.c:39): the early
`return 1` chain becomes a disjunction; `sqrt` is `Real.sqrt` (total, so the
short-circuit guard of the C code does not change the truth value). -/
def outside_detector_cyl (s : GeomSetup) (r z : ℝ) : Prop :=
  (z ≥ s.zmax ∨ z < 0) ∨
  r > s.rmax ∨
  (z > s.zmax - s.top_bullet_radius ∧
    r > (s.rmax - s.top_bullet_radius) +
      Real.sqrt (s.top_bullet_radius ^ 2 - (z - (s.zmax - s.top_bullet_radius)) ^ 2)) ∨
  (s.pc_radius > 0 ∧ z ≤ s.pc_length ∧ r ≤ s.pc_radius) ∨
  (s.taper_length > 0 ∧ z < s.taper_length ∧ r > s.zmax - s.taper_length + z)

/-- `outside_detector(pt, setup)` (detector_geometry.c:20): identical body with
`r = sqrt(x*x + y*y)`. -/
def outside_detector (s : GeomSetup) (x y z : ℝ) : Prop :=
  (z ≥ s.zmax ∨ z < 0) ∨
  Real.sqrt (x ^ 2 + y ^ 2) > s.rmax ∨
  (z > s.zmax - s.top_bullet_radius ∧
    Real.sqrt (x ^ 2 + y ^ 2) > (s.rmax - s.top_bullet_radius) +
      Real.sqrt (s.top_bullet_radius ^ 2 - (z - (s.zmax - s.top_bullet_radius)) ^ 2)) ∨
  (s.pc_radius > 0 ∧ z ≤ s.pc_length ∧ Real.sqrt (x ^ 2 + y ^ 2) ≤ s.pc_radius) ∨
  (s.taper_length > 0 ∧ z < s.taper_length ∧
    Real.sqrt (x ^ 2 + y ^ 2) > s.zmax - s.taper_length + z)

/-- The `inside(r, z)` predicate exactly as the spec words it (for comparison
with the code's test). -/
def inside_spec (s : GeomSetup) (r z : ℝ) : Prop :=
  (0 ≤ z ∧ z < s.zmax) ∧
  r ≤ s.rmax ∧
  (z > s.zmax - s.top_bullet_radius →
    r ≤ (s.rmax - s.top_bullet_radius) +
      Real.sqrt (s.top_bullet_radius ^ 2 - (z - (s.zmax - s.top_bullet_radius)) ^ 2)) ∧
  ¬(z ≤ s.pc_length ∧ r ≤ s.pc_radius) ∧
  ¬(z < s.taper_length ∧ r > s.zmax - s.taper_length + z)

/-- The spec predicate amended with the point-contact guard `R_c > 0` that the
code applies (`setup->pc_radius > 0 && ...`). -/
def inside_spec_guarded (s : GeomSetup) (r z : ℝ) : Prop :=
  (0 ≤ z ∧ z < s.zmax) ∧
  r ≤ s.rmax ∧
  (z > s.zmax - s.top_bullet_radius →
    r ≤ (s.rmax - s.top_bullet_radius) +
      Real.sqrt (s.top_bullet_radius ^ 2 - (z - (s.zmax - s.top_bullet_radius)) ^ 2)) ∧
  ¬(s.pc_radius > 0 ∧ z ≤ s.pc_length ∧ r ≤ s.pc_radius) ∧
  ¬(z < s.taper_length ∧ r > s.zmax - s.taper_length + z)

/-- Concrete configuration (a crystal with a zero-radius point contact) on
which the unguarded spec predicate and the code disagree. -/
def geomCounterSetup : GeomSetup :=
  ⟨50, 34, 0, 2, 0, 0⟩

end Geom

/- ===================== fieldgen relaxation solver (mjd_siggen.h, main) ===================== -/

namespace Fieldgen

/-- A potential plane `v[*]`, indexed `v z r` like the C `v[i][z][r]`. -/
def Plane : Type := ℕ → ℕ → ℚ

/-- Write one pixel of a plane. -/
def upd (f : Plane) (z r : ℕ) (x : ℚ) : Plane :=
  fun a b => if a = z ∧ b = r then x else f a b

/-- Sweep order of the relaxation loops: `for (z=0; z<L; z++) for (r=0; r<R; r++)`. -/
def pixelList (L R : ℕ) : List (ℕ × ℕ) :=
  (List.range L).flatMap (fun z => (List.range R).map (fun r => (z, r)))

/-- Grid-level parameters shared by the Poisson and weighting passes: the
dimensions in grid units (`L R LC RC LT RO LO WO`) and the sub-pixel contact
offsets `dRC`, `dLC` (already snapped to `0` when small, as the source does
right after computing them). -/
structure GP where
  L : ℕ
  R : ℕ
  LC : ℕ
  RC : ℕ
  LT : ℕ
  RO : ℕ
  LO : ℕ
  WO : ℕ
  dRC : ℚ
  dLC : ℚ

/-- Relaxation weight `s1[r]` (`2.0` at `r=0`, `1 + 0.5/r` otherwise). -/
def s1 (r : ℕ) : ℚ :=
  if r = 0 then 2 else 1 + 1 / (2 * (r : ℚ))

/-- Relaxation weight `s2[r]` (`0.0` at `r=0`, `1 - 0.5/r` otherwise). -/
def s2 (r : ℕ) : ℚ :=
  if r = 0 then 0 else 1 - 1 / (2 * (r : ℚ))

/-- The vacuum-ditch region: `z < LO && r < RO && r > RO-WO-1` (the comparison
over C ints becomes `RO < r + WO + 1` over `ℕ`). -/
def inDitch (gp : GP) (z r : ℕ) : Prop :=
  z < gp.LO ∧ r < gp.RO ∧ gp.RO < r + gp.WO + 1

instance (gp : GP) (z r : ℕ) : Decidable (inDitch gp z r) := by
  unfold inDitch; infer_instance

/-- Permittivity `eps[z][r]`: 1 inside the ditch, 16 in germanium. -/
def eps (gp : GP) (z r : ℕ) : ℚ :=
  if inDitch gp z r then 1 else 16

/-- Face permittivity `eps_dr[z][r]`: the averaging loop leaves
`(eps[z][r]+eps[z][r+1])/2` for `r < R` and the initial 16 at `r = R`. -/
def eps_dr (gp : GP) (z r : ℕ) : ℚ :=
  if r < gp.R then (eps gp z r + eps gp z (r + 1)) / 2 else 16

/-- Face permittivity `eps_dz[z][r]`, analogously in `z`. -/
def eps_dz (gp : GP) (z r : ℕ) : ℚ :=
  if z < gp.L then (eps gp z r + eps gp (z + 1) r) / 2 else 16

/-- The outer (HV) contact: `z == L || r == R || r >= z + R - LT ||
(z == 0 && r >= RO)` (int comparison `r >= z+R-LT` becomes
`z + R ≤ r + LT`). -/
def isOuter (gp : GP) (z r : ℕ) : Prop :=
  z = gp.L ∨ r = gp.R ∨ z + gp.R ≤ r + gp.LT ∨ (z = 0 ∧ gp.RO ≤ r)

instance (gp : GP) (z r : ℕ) : Decidable (isOuter gp z r) := by
  unfold isOuter; infer_instance

/-- A point-contact pixel re-tagged as a sub-pixel edge pixel (`bulk` 1 or 2
instead of the fixed `-1`). -/
def pcRetag (gp : GP) (z r : ℕ) : Prop :=
  (z = gp.LC ∧ gp.dLC < -(1 / 20)) ∨ (r = gp.RC ∧ gp.dRC < -(1 / 20))

instance (gp : GP) (z r : ℕ) : Decidable (pcRetag gp z r) := by
  unfold pcRetag; infer_instance

/-- The `bulk[z][r]` tag as classified by both passes: `-1` fixed, `0` plain
bulk, `1` radial sub-pixel edge of the point contact, `2` axial sub-pixel
edge. -/
def bulk (gp : GP) (z r : ℕ) : ℤ :=
  if isOuter gp z r then -1
  else if z ≤ gp.LC ∧ r ≤ gp.RC then
    (if z = gp.LC ∧ gp.dLC < -(1 / 20) then 2
     else if r = gp.RC ∧ gp.dRC < -(1 / 20) then 1
     else -1)
  else if z ≤ gp.LC ∧ r = gp.RC + 1 ∧ gp.dRC > 1 / 20 then 1
  else if z = gp.LC + 1 ∧ r ≤ gp.RC ∧ gp.dLC > 1 / 20 then 2
  else 0

/-- Interpolation weight `fRC` for the radial point-contact edge (the single
value left in the C variable by whichever classification branch fired). -/
def fRC (gp : GP) : ℚ :=
  if gp.dRC < -(1 / 20) then -1 / gp.dRC
  else if gp.dRC > 1 / 20 then 1 / (1 - gp.dRC)
  else 0

/-- Interpolation weight `fLC` for the axial point-contact edge. -/
def fLC (gp : GP) : ℚ :=
  if gp.dLC < -(1 / 20) then -1 / gp.dLC
  else if gp.dLC > 1 / 20 then 1 / (1 - gp.dLC)
  else 0

/-- Charge-volume fraction `vfraction[z][r]`: 0 in the ditch, 1 elsewhere,
scaled by `-2*dRC` at sub-pixel point-contact edges.  (The axial-edge branch
multiplies by `dRC`, not `dLC`, exactly as the source line does.) -/
def vfraction (gp : GP) (z r : ℕ) : ℚ :=
  let b0 : ℚ := if inDitch gp z r then 0 else 1
  if isOuter gp z r then b0
  else if z ≤ gp.LC ∧ r ≤ gp.RC then
    let b1 := if r = gp.RC ∧ gp.dRC < -(1 / 20) then b0 * (-2 * gp.dRC) else b0
    if z = gp.LC ∧ gp.dLC < -(1 / 20) then b1 * (-2 * gp.dRC) else b1
  else b0

/-- Neighbor accumulation for a `bulk == 0` pixel: returns
`(v_sum, eps_sum, min-of-neighbors)`. -/
def kbulk0 (gp : GP) (v : Plane) (z r : ℕ) : ℚ × ℚ × ℚ :=
  let vs0 := v (z + 1) r * eps_dz gp z r + v z (r + 1) * eps_dr gp z r * s1 r
  let es0 := eps_dz gp z r + eps_dr gp z r * s1 r
  let m0 := min (v (z + 1) r) (v z (r + 1))
  let t1 :=
    if 0 < z then
      (vs0 + v (z - 1) r * eps_dz gp (z - 1) r, es0 + eps_dz gp (z - 1) r,
       min m0 (v (z - 1) r))
    else (vs0 + v (z + 1) r * eps_dz gp z r, es0 + eps_dz gp z r, m0)
  if 0 < r then
    (t1.1 + v z (r - 1) * eps_dr gp z (r - 1) * s2 r,
     t1.2.1 + eps_dr gp z (r - 1) * s2 r, min t1.2.2 (v z (r - 1)))
  else
    (t1.1 + v z (r + 1) * eps_dr gp z r * s1 r,
     t1.2.1 + eps_dr gp z r * s1 r, t1.2.2)

/-- Neighbor accumulation for a `bulk == 1` pixel (radial point-contact edge,
`(r-1)` term weighted by `fRC`). -/
def kbulk1 (gp : GP) (v : Plane) (z r : ℕ) : ℚ × ℚ × ℚ :=
  let vs0 := v (z + 1) r * eps_dz gp z r + v z (r + 1) * eps_dr gp z r * s1 r +
    v z (r - 1) * eps_dr gp z (r - 1) * s2 r * fRC gp
  let es0 := eps_dz gp z r + eps_dr gp z r * s1 r + eps_dr gp z (r - 1) * s2 r * fRC gp
  let m0 := min (min (v (z + 1) r) (v z (r + 1))) (v z (r - 1))
  if 0 < z then
    (vs0 + v (z - 1) r * eps_dz gp (z - 1) r, es0 + eps_dz gp (z - 1) r,
     min m0 (v (z - 1) r))
  else (vs0 + v (z + 1) r * eps_dz gp z r, es0 + eps_dz gp z r, m0)

/-- Neighbor accumulation for a `bulk == 2` pixel (axial point-contact edge,
`(z-1)` term weighted by `fLC`, with the corner correction when the pixel
below is a radial edge). -/
def kbulk2 (gp : GP) (bk : ℕ → ℕ → ℤ) (v : Plane) (z r : ℕ) : ℚ × ℚ × ℚ :=
  let vs0 := v (z + 1) r * eps_dz gp z r + v z (r + 1) * eps_dr gp z r * s1 r +
    v (z - 1) r * eps_dz gp (z - 1) r * fLC gp
  let es0 := eps_dz gp z r + eps_dr gp z r * s1 r + eps_dz gp (z - 1) r * fLC gp
  let m0 := min (min (v (z + 1) r) (v z (r + 1))) (v (z - 1) r)
  let t1 :=
    if 0 < r then
      (vs0 + v z (r - 1) * eps_dr gp z (r - 1) * s2 r,
       es0 + eps_dr gp z (r - 1) * s2 r, min m0 (v z (r - 1)))
    else (vs0 + v z (r + 1) * eps_dr gp z r * s1 r, es0 + eps_dr gp z r * s1 r, m0)
  if z = gp.LC ∧ bk (z - 1) r = 1 then
    (t1.1 + v z (r - 1) * eps_dr gp z (r - 1) * s2 r * (fRC gp - 1),
     t1.2.1 + eps_dr gp z (r - 1) * s2 r * (fRC gp - 1), min t1.2.2 (v z (r - 1)))
  else t1

/-- The relaxation kernel for a non-fixed, non-pinched pixel, dispatching on
the `bulk` tag as the C switch does. -/
def kernel (gp : GP) (bk : ℕ → ℕ → ℤ) (v : Plane) (z r : ℕ) : ℚ × ℚ × ℚ :=
  if bk z r = 1 then kbulk1 gp v z r
  else if bk z r = 2 then kbulk2 gp bk v z r
  else kbulk0 gp v z r

/-- The characters written into the `undepleted` map. -/
inductive Mark
  | blank
  | dot
  | star
  | bubbleB
deriving DecidableEq

/-- The `undepleted[r][z]` map (indexed radius-first like the C array). -/
def UMap : Type := ℕ → ℕ → Mark

/-- Write one mark. -/
def updM (m : UMap) (r z : ℕ) (x : Mark) : UMap :=
  fun a b => if a = r ∧ b = z then x else m a b

/-- Space-charge clamping of a freshly computed pixel value (mjd_siggen.h
lines 585-592): clamp nonpositive values to 0; when the value drops below the
minimum of the neighbors used in its update, latch `bubble_volts = min + 0.1`
on the first such pixel of the sweep and force the value to `bubble_volts`.
Returns `(value, bubble_volts, undepleted-flag)`. -/
def clampPixel (vnew mn bub : ℚ) : ℚ × ℚ × Bool :=
  if vnew ≤ 0 then (0, bub, true)
  else if vnew < mn then
    let b := if bub = 0 then mn + 1 / 10 else bub
    (b, b, true)
  else (vnew, bub, false)

/-- The same clamping step exactly as claim C2 words it: clamp only strictly
negative values, and record the offending pixel's own value as
`bubble_volts`.  Used only to compare with `clampPixel`. -/
def clampPixel_per_claim (vnew mn bub : ℚ) : ℚ × ℚ × Bool :=
  if vnew < 0 then (0, bub, true)
  else if vnew < mn then
    let b := if bub = 0 then vnew else bub
    (b, b, true)
  else (vnew, bub, false)

/-- Parameters of the Poisson (bias-potential) pass. -/
structure PParams extends GP where
  BV : ℚ
  N : ℚ
  MM : ℚ
  e_over_E : ℚ

/-- One pixel update of the Poisson sweep, threading the partially written
plane, `bubble_volts`, and the `undepleted` marks. -/
def sweepStepP (p : PParams) (vold : Plane) (acc : Plane × ℚ × UMap) (zr : ℕ × ℕ) :
    Plane × ℚ × UMap :=
  let z := zr.1
  let r := zr.2
  if bulk p.toGP z r < 0 then acc
  else
    let k := kernel p.toGP (bulk p.toGP) vold z r
    let mean := k.1 / k.2.1
    let vnew := mean + vfraction p.toGP z r * (p.N + p.MM * (z : ℚ)) * p.e_over_E
    let u1 := if vfraction p.toGP z r > 9 / 20 then updM acc.2.2 r z Mark.dot else acc.2.2
    let c := clampPixel vnew k.2.2 acc.2.1
    let u2 :=
      if c.2.2 ∧ vfraction p.toGP z r > 9 / 20 then updM u1 r z Mark.star else u1
    (upd acc.1 z r c.1, c.2.1, u2)

/-- One full Poisson sweep (one iteration of the relaxation loop): reads
`vold`, writes every non-fixed pixel of `base`, starting from
`bubble_volts = 0`. -/
def sweepP (p : PParams) (base vold : Plane) (u : UMap) : Plane × ℚ × UMap :=
  (pixelList p.L p.R).foldl (sweepStepP p vold) (base, 0, u)

/-- Dirichlet values applied to both planes by the boundary-condition loop of
the Poisson pass: `BV` on the outer contact, `0` on the point contact. -/
def applyBCP (p : PParams) (g : Plane) : Plane :=
  fun z r =>
    if z ≤ p.L ∧ r ≤ p.R then
      if isOuter p.toGP z r then p.BV
      else if z ≤ p.LC ∧ r ≤ p.RC then 0
      else g z r
    else g z r

/-- First-level initial guess `v = a + (BV - a) * r / R` with `a = BV*z/L`. -/
def initGuess (p : PParams) : Plane :=
  fun z r =>
    let a := p.BV * (z : ℚ) / (p.L : ℚ)
    a + (p.BV - a) * (r : ℚ) / (p.R : ℚ)

/-- `n` iterations of the Poisson relaxation starting from guess planes
`g0`, `g1` (the double buffering `old`/`new` becomes the pair
`(current, previous)`).  Returns `(newest plane, previous plane,
bubble_volts of the last sweep, undepleted marks)`. -/
def relaxP (p : PParams) (g0 g1 : Plane) (u : UMap) : ℕ → Plane × Plane × ℚ × UMap
  | 0 => (applyBCP p g1, applyBCP p g0, 0, u)
  | n + 1 =>
      let s := relaxP p g0 g1 u n
      let w := sweepP p s.2.1 s.1 s.2.2.2
      (w.1, s.1, w.2.1, w.2.2)

/-- Parameters of the weighting-potential pass: the grid data plus the
depletion information carried over from the Poisson pass. -/
structure WParams extends GP where
  fully_depleted : Bool
  gridfact : ℕ
  undep : UMap

/-- The undepleted-bulk override (`undepleted[r*gridfact][z*gridfact] == '*'`):
the pixel is treated as part of the point contact. -/
def ovrStar (w : WParams) (z r : ℕ) : Prop :=
  w.fully_depleted = false ∧ w.undep (r * w.gridfact) (z * w.gridfact) = Mark.star

instance (w : WParams) (z r : ℕ) : Decidable (ovrStar w z r) := by
  unfold ovrStar; infer_instance

/-- The pinch-off override (`== 'B'`): the pixel joins the floating island. -/
def ovrB (w : WParams) (z r : ℕ) : Prop :=
  w.fully_depleted = false ∧ w.undep (r * w.gridfact) (z * w.gridfact) = Mark.bubbleB

instance (w : WParams) (z r : ℕ) : Decidable (ovrB w z r) := by
  unfold ovrB; infer_instance

/-- The `bulk` tag of the weighting pass: the shared classification plus the
two undepleted overrides (`-1` / `3`). -/
def bulkW (w : WParams) (z r : ℕ) : ℤ :=
  if ovrStar w z r then -1
  else if ovrB w z r then 3
  else bulk w.toGP z r

/-- Accumulation of the pinched sums over the bulk-tagged neighbors of a
`bulk == 3` pixel. -/
def pinchAcc (gp : GP) (bk : ℕ → ℕ → ℤ) (v : Plane) (z r : ℕ) (ps : ℚ × ℚ) : ℚ × ℚ :=
  let a :=
    if bk (z + 1) r = 0 then
      (ps.1 + v (z + 1) r * eps_dz gp z r, ps.2 + eps_dz gp z r)
    else ps
  let b :=
    if bk z (r + 1) = 0 then
      (a.1 + v z (r + 1) * eps_dr gp z r * s1 r, a.2 + eps_dr gp z r * s1 r)
    else a
  let c :=
    if 0 < z ∧ bk (z - 1) r = 0 then
      (b.1 + v (z - 1) r * eps_dz gp (z - 1) r, b.2 + eps_dz gp (z - 1) r)
    else b
  if 0 < r ∧ bk z (r - 1) = 0 then
    (c.1 + v z (r - 1) * eps_dr gp z (r - 1) * s2 r, c.2 + eps_dr gp z (r - 1) * s2 r)
  else c

/-- One pixel update of the weighting sweep, threading the plane and the two
pinched sums. -/
def sweepStepW (w : WParams) (vold : Plane) (acc : Plane × ℚ × ℚ) (zr : ℕ × ℕ) :
    Plane × ℚ × ℚ :=
  let z := zr.1
  let r := zr.2
  if bulkW w z r < 0 then acc
  else if bulkW w z r = 3 then
    (acc.1, pinchAcc w.toGP (bulkW w) vold z r (acc.2.1, acc.2.2))
  else
    let k := kernel w.toGP (bulkW w) vold z r
    (upd acc.1 z r (k.1 / k.2.1), acc.2.1, acc.2.2)

/-- One full weighting sweep: the per-pixel phase followed by the broadcast of
the common pinched mean when `pinched_sum2 > 0.1`. -/
def sweepW (w : WParams) (base vold : Plane) : Plane :=
  let t := (pixelList w.L w.R).foldl (sweepStepW w vold) (base, 0, 0)
  if t.2.2 > 1 / 10 then
    (pixelList w.L w.R).foldl
      (fun q zr => if bulkW w zr.1 zr.2 = 3 then upd q zr.1 zr.2 (t.2.1 / t.2.2) else q)
      t.1
  else t.1

/-- Dirichlet values applied by the weighting boundary-condition loop: `0` on
the outer contact, `1` on the point contact, `1` on `'*'`-override pixels. -/
def applyBCW (w : WParams) (g : Plane) : Plane :=
  fun z r =>
    if z ≤ w.L ∧ r ≤ w.R then
      if ovrStar w z r then 1
      else if isOuter w.toGP z r then 0
      else if z ≤ w.LC ∧ r ≤ w.RC then 1
      else g z r
    else g z r

/-- `n` iterations of the weighting relaxation from guess planes `g0`, `g1`. -/
def relaxW (w : WParams) (g0 g1 : Plane) : ℕ → Plane × Plane
  | 0 => (applyBCW w g1, applyBCW w g0)
  | n + 1 =>
      let s := relaxW w g0 g1 n
      (sweepW w s.2 s.1, s.1)

/-- Concrete Poisson configuration whose point-contact radius falls off-pixel
(`dRC = -0.1 < -0.05`): grid 1 mm, `L = R = 3`, `LC = 1`, `RC = 2`,
`BV = 4`, `N = -1`. -/
def pCex : PParams :=
  { L := 3, R := 3, LC := 1, RC := 2, LT := 0, RO := 3, LO := 0, WO := 0,
    dRC := -(1 / 10), dLC := 0, BV := 4, N := -1, MM := 0,
    e_over_E := 7072 / 10000 * 4 }

/-- All-blank undepleted map. -/
def blankU : UMap := fun _ _ => Mark.blank

/-- The all-zero plane. -/
def zeroPlane : Plane := fun _ _ => 0

/-- Concrete weighting configuration (fully depleted, on-pixel contact). -/
def wCex : WParams :=
  { L := 3, R := 3, LC := 1, RC := 1, LT := 0, RO := 3, LO := 0, WO := 0,
    dRC := 0, dLC := 0, fully_depleted := true, gridfact := 1, undep := blankU }

end Fieldgen

/- ===================== signal stage (calc_signal.c) ===================== -/

namespace Sig

/-- A 3-vector, standing for both `point` and `vector` of point.h. -/
structure Vec3 where
  x : ℚ
  y : ℚ
  z : ℚ
deriving DecidableEq

/-- `vector_add`. -/
def vadd (a b : Vec3) : Vec3 :=
  ⟨a.x + b.x, a.y + b.y, a.z + b.z⟩

/-- `vector_scale`. -/
def vscale (a : Vec3) (c : ℚ) : Vec3 :=
  ⟨a.x * c, a.y * c, a.z * c⟩

/-- The fields of `MJD_Siggen_Setup` read by the signal stage. -/
structure SigSetup where
  time_steps_calc : ℕ
  step_time_calc : ℚ
  step_time_out : ℚ
  ntsteps_out : ℕ
  impurity_z0 : ℚ
  xtal_temp : ℚ
  preamp_tau : ℚ
  charge_cloud_size : ℚ
  use_diffusion : Bool

/-- The routines `make_signal`/`get_signal` call into: the field lookups of
fields.c (`drift_velocity`, `wpotential`, failing with a negative return code
embedded as `none`), the geometry test, and the libm functions `sqrt` and
`exp` (whose numeric values influence none of the verified properties, so
every theorem quantifies over their interpretation). -/
structure SigEnv where
  drift_velocity : Vec3 → ℚ → Option Vec3
  wpotential : Vec3 → Option ℚ
  outside_detector : Vec3 → Bool
  sqrtQ : ℚ → ℚ
  expQ : ℚ → ℚ

/-- The function-static variables of calc_signal.c:
`static float wpot, wpot_old, dwpot` in `make_signal` (zero-initialized at
process start, persisting across calls). -/
structure Statics where
  wpot : ℚ
  wpot_old : ℚ
  dwpot : ℚ
deriving DecidableEq

/-- The mutable `MJD_Siggen_Setup` fields written by the signal stage. -/
structure SetupMut where
  initial_vel : ℚ
  final_vel : ℚ
  final_charge_size_sq : ℚ
deriving DecidableEq

/-- Modelled from the spec: the threshold `WP_THRESH_ELECTRONS` lives in
calc_signal.h, which is not part of the sources; the spec describes the
electron test as `w > 0.99`. -/
def WP_THRESH_ELECTRONS : ℚ := 99 / 100

/-- `DIFFUSION_COEF_H = 2.9e-4 * step_time_calc * 77 / xtal_temp`. -/
def diffusionCoefH (su : SigSetup) : ℚ :=
  29 / 100000 * su.step_time_calc * 77 / su.xtal_temp

/-- `DIFFUSION_COEF_E = 3.7e-4 * step_time_calc * 77 / xtal_temp`. -/
def diffusionCoefE (su : SigSetup) : ℚ :=
  37 / 100000 * su.step_time_calc * 77 / su.xtal_temp

/-- `vector_length` (point.h), via the environment's square root. -/
def vlen (env : SigEnv) (v : Vec3) : ℚ :=
  env.sqrtQ (v.x * v.x + v.y * v.y + v.z * v.z)

/-- `collect2pc`: holes for p-type, electrons for n-type. -/
def collect2pc (su : SigSetup) (q : ℚ) : Prop :=
  (q > 0 ∧ su.impurity_z0 < 0) ∨ (q < 0 ∧ su.impurity_z0 > 0)

instance (su : SigSetup) (q : ℚ) : Decidable (collect2pc su q) := by
  unfold collect2pc; infer_instance

/-- The two statics the drift loop reads and writes (`wpot`, `wpot_old`);
`dwpot` is touched only after the loop and is threaded separately. -/
structure LoopStat where
  wpot : ℚ
  wpot_old : ℚ
deriving DecidableEq

/-- Local state of the `make_signal` drift loop (the local variables plus the
buffers it mutates; the diagnostic `dpath_e`/`dpath_h` traces are not
modelled, they are never read by the signal computation). -/
structure LoopSt where
  new_pt : Vec3
  v : Vec3
  dx : Vec3
  vel1 : ℚ
  signal : List ℚ
  st : LoopStat
  sm : SetupMut

/-- Proof helper for the static-state analysis: the same loop state with the
`wpot` static replaced. -/
def setW (s : LoopSt) (w : ℚ) : LoopSt :=
  { s with st := ⟨w, s.st.wpot_old⟩ }

/-- How the drift loop ended. -/
inductive ExitK
  | driftFail
  | wpFail
  | stepBreak (lowf : Bool)
  | hackBreak
  | fuelOut
deriving DecidableEq

/-- The `v` assignment of the loop condition plus the `collect2pc`
bookkeeping of the drift-loop body (calc_signal.c:216, 222-235): touches only
`v`, `vel1` and the mutated Setup fields. -/
def msVel (env : SigEnv) (su : SigSetup) (q : ℚ) (t : ℕ) (v0 : Vec3)
    (s : LoopSt) : LoopSt :=
  let sa := { s with v := v0 }
  if collect2pc su q then
    if t = 1 then
      let vl := vlen env v0
      { sa with
        vel1 := vl,
        sm := { sa.sm with
                initial_vel := vl,
                final_vel := vl,
                final_charge_size_sq :=
                  su.charge_cloud_size * su.charge_cloud_size } }
    else if su.use_diffusion then
      let vl := vlen env v0
      { sa with
        vel1 := vl,
        sm := { sa.sm with
                final_charge_size_sq :=
                  sa.sm.final_charge_size_sq * (vl * vl) /
                    (sa.vel1 * sa.vel1) +
                  (if q > 0 then diffusionCoefH su else diffusionCoefE su) } }
    else sa
  else sa

/-- The `make_signal` drift loop (calc_signal.c:216-265), one constructor per
C statement; `fuel` only bounds the recursion (the loop always breaks by
`t >= ntsteps-2`, so `fuel = ntsteps+1` is never exhausted). -/
def msLoop (env : SigEnv) (su : SigSetup) (q : ℚ) :
    ℕ → ℕ → LoopSt → ExitK × ℕ × LoopSt
  | 0, t, s => (ExitK.fuelOut, t, s)
  | fuel + 1, t, s =>
    match env.drift_velocity s.new_pt q with
    | none => (ExitK.driftFail, t, s)
    | some v0 =>
      let sb := msVel env su q t v0 s
      if su.time_steps_calc - 2 ≤ t then
        (ExitK.stepBreak (decide (collect2pc su q ∨ sb.st.wpot > WP_THRESH_ELECTRONS)), t, sb)
      else
        match env.wpotential sb.new_pt with
        | none => (ExitK.wpFail, t, sb)
        | some w =>
          let sc := { sb with st := { sb.st with wpot := w } }
          let sd :=
            if 0 < t then { sc with signal := listAdd sc.signal t (q * (w - sc.st.wpot_old)) }
            else sc
          if w ≥ 999 / 1000 ∧ w - sd.st.wpot_old < 2 / 10000 then (ExitK.hackBreak, t, sd)
          else
            let se := { sd with st := { sd.st with wpot_old := w } }
            let dx := vscale se.v su.step_time_calc
            msLoop env su q fuel (t + 1) { se with dx := dx, new_pt := vadd se.new_pt dx }

/-- The drift continuation search after leaving the field grid
(calc_signal.c:280-285): step along `dx` until outside the crystal or the
time budget runs out. -/
def tailSearch (env : SigEnv) (ntsteps t : ℕ) (dx : Vec3) :
    ℕ → ℕ → Vec3 → ℕ × Vec3
  | 0, n, p => (n, p)
  | fuel + 1, n, p =>
    if ntsteps ≤ n + t then (n, p)
    else
      let p2 := vadd p dx
      if env.outside_detector p2 then (n, p2)
      else tailSearch env ntsteps t dx fuel (n + 1) p2

/-- The tail smearing loop (calc_signal.c:308-311):
`signal[i+t] += q*dwpot` for `i = 0..n-1` (ascending). -/
def smearLoop (q dwp : ℚ) (t : ℕ) : ℕ → List ℚ → List ℚ
  | 0, sig => sig
  | n + 1, sig => listAdd (smearLoop q dwp t n sig) (n + t) (q * dwp)

/-- Result of `make_signal`: the return code, the signal buffer, and the
mutated static / Setup state. -/
structure MSResult where
  err : ℤ
  signal : List ℚ
  st : Statics
  sm : SetupMut
deriving DecidableEq

/-- The post-loop part of `make_signal` when the carrier drifted to the edge
of the field grid without `low_field` (calc_signal.c:275-311). -/
def ms_tail (env : SigEnv) (su : SigSetup) (q dw0 : ℚ) (t : ℕ) (s : LoopSt) : MSResult :=
  let ntsteps := su.time_steps_calc
  let ts := tailSearch env ntsteps t s.dx ntsteps 0 s.new_pt
  let n1 := if ts.1 = 0 then 1 else ts.1
  if ntsteps ≤ n1 + t ∧ (q > 0 ∨ s.st.wpot > WP_THRESH_ELECTRONS) then
    ⟨-1, s.signal, ⟨s.st.wpot, s.st.wpot_old, dw0⟩, s.sm⟩
  else
    let n2 := if ntsteps ≤ n1 + t then ntsteps - t else n1
    let dwp := if s.st.wpot > 3 / 10 then (1 - s.st.wpot) / (n2 : ℚ)
               else -s.st.wpot / (n2 : ℚ)
    let sig2 := smearLoop q dwp t n2 s.signal
    let sm2 := if q > 0 then { s.sm with final_vel := vlen env s.v } else s.sm
    ⟨0, sig2, ⟨s.st.wpot, s.st.wpot_old, dwp⟩, sm2⟩

/-- `make_signal(pt, signal, q, setup)` (calc_signal.c:199-317). -/
def make_signal (env : SigEnv) (su : SigSetup) (pt : Vec3) (q : ℚ)
    (signal : List ℚ) (st : Statics) (sm : SetupMut) : MSResult :=
  let s0 : LoopSt :=
    { new_pt := pt, v := ⟨0, 0, 0⟩, dx := ⟨0, 0, 0⟩, vel1 := 0,
      signal := signal, st := ⟨st.wpot, st.wpot_old⟩, sm := sm }
  let r := msLoop env su q (su.time_steps_calc + 1) 0 s0
  let s := r.2.2
  if r.1 = ExitK.wpFail ∨ r.1 = ExitK.fuelOut then
    ⟨-1, s.signal, ⟨s.st.wpot, s.st.wpot_old, st.dwpot⟩, s.sm⟩
  else if r.2.1 = 0 then
    ⟨-1, s.signal, ⟨s.st.wpot, s.st.wpot_old, st.dwpot⟩, s.sm⟩
  else
    let lowf : Bool :=
      match r.1 with
      | ExitK.stepBreak b => b
      | ExitK.hackBreak => true
      | _ => false
    if lowf then
      let sm2 := if q > 0 then { s.sm with final_vel := vlen env s.v } else s.sm
      ⟨0, s.signal, ⟨s.st.wpot, s.st.wpot_old, st.dwpot⟩, sm2⟩
    else ms_tail env su q st.dwpot r.2.1 s

/-- The scratch signal buffer of `get_signal`, zeroed at every call. -/
def gs_sigInit (su : SigSetup) : List ℚ :=
  List.replicate su.time_steps_calc 0

/-- The electron invocation of `make_signal` inside `get_signal`
(calc_signal.c:124); its return code is overwritten by the hole call. -/
def gs_electron (env : SigEnv) (su : SigSetup) (pt : Vec3) (st : Statics)
    (sm : SetupMut) : MSResult :=
  make_signal env su pt (-1) (gs_sigInit su) st sm

/-- The hole invocation (calc_signal.c:125), running on the buffer and static
state left by the electron invocation. -/
def gs_hole (env : SigEnv) (su : SigSetup) (pt : Vec3) (st : Statics)
    (sm : SetupMut) : MSResult :=
  let e := gs_electron env su pt st sm
  make_signal env su pt 1 e.signal e.st e.sm

/-- Current-to-charge prefix sum (calc_signal.c:130). -/
def prefixLoop (sig : List ℚ) : List ℚ :=
  (List.range' 1 (sig.length - 1)).foldl
    (fun s j => s.set j (s.getD (j - 1) 0 + s.getD j 0)) sig

/-- Inner `j` loop of the Gaussian convolution (calc_signal.c:164-169):
accumulates into `sum` and `tmp`, reading the un-renormalized `signal`. -/
def gaussInner (y : ℚ) (k : ℕ) (signal : List ℚ) (sumTmp : List ℚ × List ℚ) :
    List ℚ × List ℚ :=
  (List.range (signal.length - k)).foldl
    (fun acc j =>
      (listAdd (listAdd acc.1 j y) (j + k) y,
       listAdd (listAdd acc.2 j (signal.getD (j + k) 0 * y)) (j + k)
         (signal.getD j 0 * y)))
    sumTmp

/-- Renormalization `signal[j] = tmp[j]/sum[j]` (calc_signal.c:170-172). -/
def gaussRenorm (signal sum tmp : List ℚ) : List ℚ :=
  (List.range signal.length).foldl
    (fun s j => s.set j (tmp.getD j 0 / sum.getD j 0)) signal

/-- Outer `k` loop of the Gaussian convolution (calc_signal.c:161-173). -/
def gaussKLoop (env : SigEnv) (w : ℚ) (l dt2 : ℕ) :
    ℕ → ℕ → List ℚ × List ℚ × List ℚ → List ℚ × List ℚ × List ℚ
  | 0, _, acc => acc
  | fuel + 1, k, acc =>
    if k < dt2 then
      let x := (k : ℚ) / w
      let y := env.expQ (-(x * x))
      let st2 := gaussInner y k acc.1 (acc.2.1, acc.2.2)
      let sig2 := gaussRenorm acc.1 st2.1 st2.2
      gaussKLoop env w l dt2 fuel (k + l) (sig2, st2.1, st2.2)
    else acc

/-- The Gaussian charge-cloud convolution (calc_signal.c:152-174). -/
def gaussConv (env : SigEnv) (signal : List ℚ) (dt : ℕ) : List ℚ :=
  let w : ℚ := (dt : ℚ) / (2355 / 1000)
  let l0 := dt / 5
  let l := if l0 < 1 then 1 else l0
  (gaussKLoop env w l (2 * dt) (2 * dt + 1) l
      (signal, List.replicate signal.length 1, signal)).1

/-- The charge-cloud / diffusion width selection and convolution
(calc_signal.c:134-175). -/
def gs_convolved (env : SigEnv) (su : SigSetup) (sm : SetupMut)
    (signal : List ℚ) : List ℚ :=
  if su.charge_cloud_size > 1 / 1000 ∨ su.use_diffusion then
    let dtA : ℤ :=
      truncQ (3 / 2 + su.charge_cloud_size / (su.step_time_calc * sm.initial_vel))
    let dtB : ℤ := if sm.initial_vel < 1 / 100000 then 0 else dtA
    let dtC : ℤ :=
      if su.use_diffusion then
        truncQ (3 / 2 + env.sqrtQ sm.final_charge_size_sq /
          (su.step_time_calc * sm.final_vel))
      else dtB
    if 1 < dtC then gaussConv env signal dtC.toNat else signal
  else signal

/-- Downsampling by `comp_f = time_steps_calc / ntsteps_out`
(calc_signal.c:179-182). -/
def gs_downsample (su : SigSetup) (signal : List ℚ) : List ℚ :=
  let comp_f := su.time_steps_calc / su.ntsteps_out
  (List.range (su.ntsteps_out * comp_f)).foldl
    (fun o j => listAdd o (j / comp_f) (signal.getD j 0 / (comp_f : ℚ)))
    (List.replicate su.ntsteps_out 0)

/-- Result of `get_signal`: the status code, the caller's output array, and
the final static / Setup state. -/
structure GSResult where
  status : ℤ
  out : List ℚ
  st : Statics
  sm : SetupMut
deriving DecidableEq

/-- `get_signal(pt, signal_out, setup)` (calc_signal.c:95-193), with
`signal_out != NULL`. -/
def get_signal (env : SigEnv) (su : SigSetup) (pt : Vec3) (st : Statics)
    (sm : SetupMut) : GSResult :=
  if env.outside_detector pt then ⟨-1, [], st, sm⟩
  else
    let h := gs_hole env su pt st sm
    let sig1 := prefixLoop h.signal
    let sig2 := gs_convolved env su h.sm sig1
    let out0 := gs_downsample su sig2
    let out :=
      if su.preamp_tau / su.step_time_out ≥ 1 / 10 then
        rc_integrate_a out0 (su.preamp_tau / su.step_time_out)
      else out0
    ⟨if h.err ≠ 0 then -1 else 1, out, h.st, h.sm⟩

/-- Zeroed statics (the process-start state of the C `static` variables). -/
def st0 : Statics := ⟨0, 0, 0⟩

/-- Zeroed mutable Setup fields. -/
def sm0 : SetupMut := ⟨0, 0, 0⟩

/-- Field environment for the static-state counterexample: upward unit drift
that leaves the field grid at `z = 2`, weighting potential `0.9994` below
`z = -1`, `0.9995` up to `z = 1/2`, and `0.5` above. -/
def env9 : SigEnv :=
  { drift_velocity := fun p _ => if p.z < 2 then some ⟨0, 0, 1⟩ else none,
    wpotential := fun p =>
      some (if p.z < -1 then 4997 / 5000 else if p.z < 1 / 2 then 1999 / 2000 else 1 / 2),
    outside_detector := fun _ => false,
    sqrtQ := fun _ => 0,
    expQ := fun _ => 0 }

/-- A five-step p-type setup with no charge-cloud correction and no RC
filtering. -/
def setup9 : SigSetup :=
  { time_steps_calc := 5, step_time_calc := 1, step_time_out := 1,
    ntsteps_out := 5, impurity_z0 := -1, xtal_temp := 77, preamp_tau := 0,
    charge_cloud_size := 0, use_diffusion := false }

/-- First-call start point of the counterexample. -/
def pt9a : Vec3 := ⟨0, 0, -5⟩

/-- Second-call start point of the counterexample. -/
def pt9b : Vec3 := ⟨0, 0, 0⟩

/-- Field environment for the electron-truncation counterexample: unit drift
leaving the field grid at `z = 2` with weighting potential `0.995`
everywhere. -/
def env5 : SigEnv :=
  { drift_velocity := fun p _ => if p.z < 2 then some ⟨0, 0, 1⟩ else none,
    wpotential := fun _ => some (199 / 200),
    outside_detector := fun _ => false,
    sqrtQ := fun _ => 0,
    expQ := fun _ => 0 }

end Sig

/- ===================== helper lemmas ===================== -/

theorem getD_set_ne (a : List ℚ) {i j : ℕ} (x : ℚ) (h : i ≠ j) :
    (a.set i x).getD j 0 = a.getD j 0 := by
  simp [List.getD_eq_getElem?_getD, List.getElem?_set_ne h]

theorem getD_set_self (a : List ℚ) {i : ℕ} (x : ℚ) (h : i < a.length) :
    (a.set i x).getD i 0 = x := by
  simp [List.getD_eq_getElem?_getD, List.getElem?_set_self h]

theorem listEq_of_getD (u v : List ℚ) (hl : u.length = v.length)
    (h : ∀ j, j < u.length → u.getD j 0 = v.getD j 0) : u = v := by
  apply List.ext_getElem hl
  intro i h1 h2
  have e1 : u.getD i 0 = u[i] := by
    simp [List.getD_eq_getElem?_getD, List.getElem?_eq_getElem h1]
  have e2 : v.getD i 0 = v[i] := by
    simp [List.getD_eq_getElem?_getD, List.getElem?_eq_getElem h2]
  rw [← e1, ← e2]
  exact h i h1

theorem descList_succ (k : ℕ) : descList (k + 1) = (k + 1) :: descList k := by
  unfold descList
  rw [List.range'_concat]
  simp [List.reverse_concat, Nat.add_comm]

theorem rcShiftD_length (x : List ℚ) (l : List ℕ) (out : List ℚ) :
    (rcShiftD x l out).length = out.length := by
  induction l generalizing out with
  | nil => rfl
  | cons j js ih => simp [rcShiftD, ih]

theorem rcShiftA_length (l : List ℕ) (a : List ℚ) :
    (rcShiftA l a).length = a.length := by
  induction l generalizing a with
  | nil => rfl
  | cons j js ih => simp [rcShiftA, ih]

theorem rcLoopD_length (x : List ℚ) (tau : ℚ) (l : List ℕ) (out : List ℚ) (io : ℚ) :
    (rcLoopD x tau l out io).length = out.length := by
  induction l generalizing out io with
  | nil => rfl
  | cons j js ih => simp [rcLoopD, ih]

theorem rcLoopA_length (tau : ℚ) (l : List ℕ) (a : List ℚ) (io : ℚ) :
    (rcLoopA tau l a io).length = a.length := by
  induction l generalizing a io with
  | nil => rfl
  | cons j js ih => simp [rcLoopA, ih]

theorem rcShiftD_getD (x : List ℚ) :
    ∀ (k : ℕ) (out : List ℚ), k < out.length → ∀ j,
      (rcShiftD x (descList k) out).getD j 0 =
        if 1 ≤ j ∧ j ≤ k then x.getD (j - 1) 0 else out.getD j 0 := by
  intro k
  induction k with
  | zero =>
    intro out _ j
    have hc : ¬(1 ≤ j ∧ j ≤ 0) := by omega
    show out.getD j 0 = _
    rw [if_neg hc]
  | succ k ih =>
    intro out h j
    rw [descList_succ]
    show (rcShiftD x (descList k) (out.set (k + 1) (x.getD k 0))).getD j 0 = _
    rw [ih (out.set (k + 1) (x.getD k 0)) (by simp; omega) j]
    by_cases h1 : 1 ≤ j ∧ j ≤ k
    · have h2 : 1 ≤ j ∧ j ≤ k + 1 := by omega
      simp [h1, h2]
    · simp only [h1, if_false]
      by_cases h2 : j = k + 1
      · subst h2
        have h3 : 1 ≤ k + 1 ∧ k + 1 ≤ k + 1 := by omega
        rw [getD_set_self _ _ h, if_pos h3]
        simp
      · have h3 : ¬(1 ≤ j ∧ j ≤ k + 1) := by omega
        rw [getD_set_ne _ _ (fun hh => h2 hh.symm), if_neg h3]

theorem rcLoopD_not_mem (x : List ℚ) (tau : ℚ) :
    ∀ (l : List ℕ) (out : List ℚ) (io : ℚ) (j : ℕ), j ∉ l →
      (rcLoopD x tau l out io).getD j 0 = out.getD j 0 := by
  intro l
  induction l with
  | nil => intro out io j _; rfl
  | cons i is ih =>
    intro out io j hj
    have h1 : j ≠ i := fun hh => hj (hh ▸ List.mem_cons_self i is)
    have h2 : j ∉ is := fun hh => hj (List.mem_cons_of_mem i hh)
    show (rcLoopD x tau is _ _).getD j 0 = _
    rw [ih _ _ j h2, getD_set_ne _ _ (fun hh => h1 hh.symm)]

theorem rcLoopD_recur (x : List ℚ) (tau : ℚ) :
    ∀ (k s : ℕ) (out : List ℚ), 1 ≤ s → s + k ≤ out.length →
      (∀ j, j < s →
        (rcLoopD x tau (List.range' s k) out (x.getD (s - 1) 0)).getD j 0 =
          out.getD j 0) ∧
      (∀ j, s ≤ j → j < s + k →
        (rcLoopD x tau (List.range' s k) out (x.getD (s - 1) 0)).getD j 0 =
          (rcLoopD x tau (List.range' s k) out (x.getD (s - 1) 0)).getD (j - 1) 0 +
            (x.getD (j - 1) 0 -
              (rcLoopD x tau (List.range' s k) out (x.getD (s - 1) 0)).getD (j - 1) 0) / tau) := by
  intro k
  induction k with
  | zero =>
    intro s out hs hlen
    constructor
    · intro j _; rfl
    · intro j h1 h2; omega
  | succ k ih =>
    intro s out hs hlen
    have hsl : s < out.length := by omega
    rw [List.range'_succ]
    simp only [rcLoopD]
    obtain ⟨ihp, ihr⟩ :=
      ih (s + 1)
        (out.set s (out.getD (s - 1) 0 + (x.getD (s - 1) 0 - out.getD (s - 1) 0) / tau))
        (by omega) (by simp; omega)
    simp only [Nat.succ_sub_one] at ihp ihr
    constructor
    · intro j hj
      rw [ihp j (by omega), getD_set_ne _ _ (by omega)]
    · intro j h1 h2
      by_cases hj : j = s
      · subst hj
        rw [ihp j (by omega), getD_set_self _ _ hsl,
          ihp (j - 1) (by omega), getD_set_ne _ _ (by omega)]
      · exact ihr j (by omega) (by omega)

/-- C6 helper: the two real branches of `rc_integrate`, pointwise. -/
theorem rc_integrate_d_shift_getD (x out0 : List ℚ) (tau : ℚ)
    (h : out0.length = x.length) (htau : tau < 1) :
    ∀ j, 1 ≤ j → j < x.length →
      (rc_integrate_d x out0 tau).getD j 0 = x.getD (j - 1) 0 := by
  intro j h1 h2
  unfold rc_integrate_d
  rw [if_pos htau, getD_set_ne _ _ (by omega)]
  rw [rcShiftD_getD x (x.length - 1) out0 (by omega) j, if_pos (by omega)]

theorem rcShiftA_eq_rcShiftD (x : List ℚ) :
    ∀ (k : ℕ) (a : List ℚ), (∀ i, i ≤ k → a.getD i 0 = x.getD i 0) →
      rcShiftA (descList k) a = rcShiftD x (descList k) a := by
  intro k
  induction k with
  | zero => intro a _; rfl
  | succ k ih =>
    intro a ha
    rw [descList_succ]
    show rcShiftA (descList k) (a.set (k + 1) (a.getD k 0)) =
      rcShiftD x (descList k) (a.set (k + 1) (x.getD k 0))
    rw [ha k (by omega)]
    apply ih
    intro i hi
    rw [getD_set_ne _ _ (by omega)]
    exact ha i (by omega)

theorem rcShiftD_out_indep (x out out2 : List ℚ) (k : ℕ)
    (hk : out.length = k + 1) (hk2 : out2.length = k + 1) :
    ∀ j, 1 ≤ j → j < out.length →
      (rcShiftD x (descList k) out).getD j 0 = (rcShiftD x (descList k) out2).getD j 0 := by
  intro j h1 hj
  rw [rcShiftD_getD x k out (by omega) j, rcShiftD_getD x k out2 (by omega) j]
  have hc : 1 ≤ j ∧ j ≤ k := by omega
  simp [hc]

theorem rcLoopA_eq_rcLoopD (x : List ℚ) (tau : ℚ) :
    ∀ (k s : ℕ) (a out : List ℚ) (io : ℚ),
      1 ≤ s → a.length = out.length → s + k ≤ a.length →
      (∀ i, i < s → a.getD i 0 = out.getD i 0) →
      (∀ i, s ≤ i → a.getD i 0 = x.getD i 0) →
      ∀ j, j < s + k →
        (rcLoopA tau (List.range' s k) a io).getD j 0 =
          (rcLoopD x tau (List.range' s k) out io).getD j 0 := by
  intro k
  induction k with
  | zero =>
    intro s a out io _ _ _ hpre _ j hj
    exact hpre j (by omega)
  | succ k ih =>
    intro s a out io hs hlen hbound hpre hsuf j hj
    have hsa : s < a.length := by omega
    have hso : s < out.length := by omega
    rw [List.range'_succ]
    simp only [rcLoopA, rcLoopD]
    rw [hpre (s - 1) (by omega), hsuf s (le_refl s)]
    apply ih (s + 1) _ _ _ (by omega) (by simp [hlen]) (by simp; omega)
    · intro i hi
      by_cases hc : i = s
      · subst hc
        rw [getD_set_self _ _ hsa, getD_set_self _ _ hso]
      · rw [getD_set_ne _ _ (by omega), getD_set_ne _ _ (by omega)]
        exact hpre i (by omega)
    · intro i hi
      rw [getD_set_ne _ _ (by omega)]
      exact hsuf i (by omega)
    · omega

theorem not_mem_range'_one (k : ℕ) : 0 ∉ List.range' 1 k := by
  intro hmem
  rw [List.mem_range'] at hmem
  omega

/-- C8: Aliasing safety of rc_integrate — calling `rc_integrate` with the
output buffer aliased to the input buffer produces exactly the same output
array as calling it with a separate, disjoint output buffer of the same
length. -/
theorem C8_rc_aliasing_safe (s_in s_out : List ℚ) (tau : ℚ)
    (h : s_out.length = s_in.length) :
    rc_integrate_a s_in tau = rc_integrate_d s_in s_out tau := by
  rcases Nat.eq_zero_or_pos s_in.length with h0 | hpos
  · have e1 : s_in = [] := List.length_eq_zero.mp h0
    have e2 : s_out = [] := List.length_eq_zero.mp (by omega)
    subst e1; subst e2
    unfold rc_integrate_a rc_integrate_d
    split <;> rfl
  · by_cases htau : tau < 1
    · unfold rc_integrate_a rc_integrate_d
      rw [if_pos htau, if_pos htau,
        rcShiftA_eq_rcShiftD s_in (s_in.length - 1) s_in (fun i _ => rfl)]
      apply listEq_of_getD
      · simp [rcShiftD_length, h]
      · intro j hj
        simp only [List.length_set, rcShiftD_length] at hj
        by_cases hz : j = 0
        · subst hz
          rw [getD_set_self _ _ (by simp [rcShiftD_length]; omega),
            getD_set_self _ _ (by simp [rcShiftD_length]; omega)]
        · rw [getD_set_ne _ _ (fun hh => hz hh.symm),
            getD_set_ne _ _ (fun hh => hz hh.symm)]
          exact rcShiftD_out_indep s_in s_in s_out (s_in.length - 1)
            (by omega) (by omega) j (by omega) hj
    · unfold rc_integrate_a rc_integrate_d
      rw [if_neg htau, if_neg htau]
      apply listEq_of_getD
      · simp [rcLoopA_length, rcLoopD_length, h]
      · intro j hj
        simp only [rcLoopA_length, List.length_set] at hj
        apply rcLoopA_eq_rcLoopD s_in tau (s_in.length - 1) 1
          (s_in.set 0 0) (s_out.set 0 0) (s_in.getD 0 0) (le_refl 1)
          (by simp [h]) (by simp; omega)
        · intro i hi
          have hz : i = 0 := by omega
          subst hz
          rw [getD_set_self _ _ (by omega), getD_set_self _ _ (by omega)]
        · intro i hi
          rw [getD_set_ne _ _ (by omega)]
        · omega

/-- C8 witness: a concrete aliased call agreeing with the separate-buffer
call. -/
theorem C8_rc_aliasing_safe_witness :
    ([(5 : ℚ), 7].length = [(1 : ℚ), 2].length) ∧
    rc_integrate_a [1, 2] 3 = rc_integrate_d [1, 2] [5, 7] 3 :=
  ⟨rfl, C8_rc_aliasing_safe [1, 2] [5, 7] 3 rfl⟩

/-- C6 (amended): the branch of `rc_integrate` that applies the recurrence
`y[j] = y[j-1] + (x[j-1] - y[j-1])/tau` with `y[0] = 0` is selected by
`tau >= 1` (tau in units of the output time step), and the right-shift branch
by `tau < 1` — not by the 0.1 threshold, which only gates whether
`get_signal` calls `rc_integrate` at all. -/
theorem C6_rc_branch_selection (x out0 : List ℚ) (tau : ℚ)
    (h : out0.length = x.length) :
    (rc_integrate_d x out0 tau).getD 0 0 = 0 ∧
    (tau < 1 → ∀ j, 1 ≤ j → j < x.length →
      (rc_integrate_d x out0 tau).getD j 0 = x.getD (j - 1) 0) ∧
    (1 ≤ tau → ∀ j, 1 ≤ j → j < x.length →
      (rc_integrate_d x out0 tau).getD j 0 =
        (rc_integrate_d x out0 tau).getD (j - 1) 0 +
          (x.getD (j - 1) 0 - (rc_integrate_d x out0 tau).getD (j - 1) 0) / tau) := by
  refine ⟨?_, ?_, ?_⟩
  · rcases Nat.eq_zero_or_pos x.length with h0 | hpos
    · have e1 : x = [] := List.length_eq_zero.mp h0
      have e2 : out0 = [] := List.length_eq_zero.mp (by omega)
      subst e1; subst e2
      unfold rc_integrate_d
      split <;> rfl
    · unfold rc_integrate_d
      by_cases htau : tau < 1
      · rw [if_pos htau, getD_set_self _ _ (by simp [rcShiftD_length]; omega)]
      · rw [if_neg htau, rcLoopD_not_mem x tau _ _ _ 0 (not_mem_range'_one _),
          getD_set_self _ _ (by omega)]
  · intro htau j h1 h2
    exact rc_integrate_d_shift_getD x out0 tau h htau j h1 h2
  · intro htau j h1 h2
    unfold rc_integrate_d
    rw [if_neg (not_lt.mpr htau)]
    have hio : x.getD 0 0 = x.getD (1 - 1) 0 := by norm_num
    rw [hio]
    exact (rcLoopD_recur x tau (x.length - 1) 1 (out0.set 0 0) (le_refl 1)
      (by simp; omega)).2 j h1 (by omega)

/-- C6 witness: the recurrence-characterization applied at a concrete input
(shift branch, `tau = 1/2`). -/
theorem C6_rc_branch_selection_witness :
    (rc_integrate_d [4, 9] [0, 0] (1 / 2)).getD 1 0 = 4 := by
  have h := (C6_rc_branch_selection [4, 9] [0, 0] (1 / 2) rfl).2.1
    (by norm_num) 1 (by norm_num) (by norm_num)
  simpa using h

/-- C6 counterexample: at `tau = 1/2` (which is `>= 0.1` in output-step
units), `rc_integrate` shifts instead of applying the recurrence the claim
prescribes. -/
theorem C6_threshold_counterexample :
    ((1 : ℚ) / 2 ≥ 1 / 10) ∧
    rc_per_claim [1, 1, 1] (1 / 2) ≠ rc_integrate_d [1, 1, 1] [0, 0, 0] (1 / 2) := by
  constructor
  · norm_num
  · norm_num [rc_per_claim, rcRecur, rc_integrate_d, descList, rcShiftD,
      List.range']

/-- C7 (amended): with `tau = 3` output steps (30 ns / 10 ns) and a unit step
input, the discrete RC recurrence produces exactly `1/3` at sample 1 and
`5/9` at sample 2 (not the continuum values `1 - exp(-1/3)` and
`1 - exp(-2/3)`). -/
theorem C7_step_response_discrete :
    (rc_integrate_d (List.replicate 10 1) (List.replicate 10 0) 3).getD 1 0 = 1 / 3 ∧
    (rc_integrate_d (List.replicate 10 1) (List.replicate 10 0) 3).getD 2 0 = 5 / 9 := by
  constructor <;>
    norm_num [rc_integrate_d, rcLoopD, List.range', List.replicate, descList]

/-- C7 counterexample: the claimed values 0.283 and 0.487 (to three decimals)
are not what the code computes at samples 1 and 2. -/
theorem C7_step_response_counterexample :
    (rc_integrate_d (List.replicate 10 1) (List.replicate 10 0) 3).getD 1 0 ≠ 283 / 1000 ∧
    ¬|(rc_integrate_d (List.replicate 10 1) (List.replicate 10 0) 3).getD 1 0 - 283 / 1000| < 1 / 1000 ∧
    (rc_integrate_d (List.replicate 10 1) (List.replicate 10 0) 3).getD 2 0 ≠ 487 / 1000 := by
  refine ⟨?_, ?_, ?_⟩
  · norm_num [rc_integrate_d, rcLoopD, List.range', List.replicate, descList]
  · norm_num [rc_integrate_d, rcLoopD, List.range', List.replicate, descList]
    rw [abs_of_pos (by norm_num)]
    norm_num
  · norm_num [rc_integrate_d, rcLoopD, List.range', List.replicate, descList]

/-- C4 (amended): the cylindrical geometry test is the spec predicate with
the point-contact-cavity clause additionally guarded by `pc_radius > 0` (as
the code's `setup->pc_radius > 0 &&` does); the Cartesian version agrees with
the cylindrical one under `r = sqrt(x^2 + y^2)`. -/
theorem C4_geometry_test (s : Geom.GeomSetup) (r z x y : ℝ) :
    (¬Geom.outside_detector_cyl s r z ↔ Geom.inside_spec_guarded s r z) ∧
    (Geom.outside_detector s x y z ↔
      Geom.outside_detector_cyl s (Real.sqrt (x ^ 2 + y ^ 2)) z) := by
  constructor
  · unfold Geom.outside_detector_cyl Geom.inside_spec_guarded
    constructor
    · intro h
      push_neg at h
      obtain ⟨⟨hz1, hz2⟩, hr, hb, hp, ht⟩ := h
      refine ⟨⟨hz2, hz1⟩, hr, hb, ?_, ?_⟩
      · rintro ⟨hp0, hzl, hrl⟩
        have := hp hp0 hzl
        linarith
      · rintro ⟨hzt, hre⟩
        have hT : s.taper_length > 0 := lt_of_le_of_lt hz2 hzt
        have := ht hT hzt
        linarith
    · intro h
      obtain ⟨⟨hz0, hz1⟩, hr, hb, hp, ht⟩ := h
      push_neg
      refine ⟨⟨hz1, hz0⟩, hr, hb, ?_, ?_⟩
      · intro hp0 hzl
        by_contra hc
        push_neg at hc
        exact hp ⟨hp0, hzl, hc⟩
      · intro _ hzt
        by_contra hc
        push_neg at hc
        exact ht ⟨hzt, hc⟩
  · exact Iff.rfl

/-- C4 counterexample: with a zero-radius point contact (`pc_radius = 0`) the
code reports the origin inside the crystal, while the spec predicate as
claimed puts it inside the point-contact cavity. -/
theorem C4_geometry_counterexample :
    ¬Geom.outside_detector_cyl Geom.geomCounterSetup 0 0 ∧
    ¬Geom.inside_spec Geom.geomCounterSetup 0 0 := by
  constructor
  · unfold Geom.outside_detector_cyl Geom.geomCounterSetup
    rintro ((h | h) | h | ⟨h, _⟩ | ⟨h, _⟩ | ⟨h, _⟩) <;> norm_num at h
  · unfold Geom.inside_spec Geom.geomCounterSetup
    intro h
    exact h.2.2.2.1 ⟨by norm_num, le_refl 0⟩

namespace Fieldgen

theorem upd_ne (f : Plane) {z r z0 r0 : ℕ} (x : ℚ) (h : ¬(z0 = z ∧ r0 = r)) :
    upd f z r x z0 r0 = f z0 r0 := if_neg h

theorem bulk_outer {gp : GP} {z r : ℕ} (h : isOuter gp z r) : bulk gp z r = -1 := by
  unfold bulk
  rw [if_pos h]

theorem bulk_pc {gp : GP} {z r : ℕ} (ho : ¬isOuter gp z r) (hz : z ≤ gp.LC)
    (hr : r ≤ gp.RC) (hre : ¬pcRetag gp z r) : bulk gp z r = -1 := by
  have h1 : ¬(z = gp.LC ∧ gp.dLC < -(1 / 20)) :=
    fun hc => hre (show pcRetag gp z r from Or.inl hc)
  have h2 : ¬(r = gp.RC ∧ gp.dRC < -(1 / 20)) :=
    fun hc => hre (show pcRetag gp z r from Or.inr hc)
  unfold bulk
  rw [if_neg ho, if_pos (show z ≤ gp.LC ∧ r ≤ gp.RC from ⟨hz, hr⟩),
    if_neg h1, if_neg h2]

theorem sweepP_foldl_fixed (p : PParams) (vold : Plane) :
    ∀ (l : List (ℕ × ℕ)) (acc : Plane × ℚ × UMap) (z0 r0 : ℕ),
      bulk p.toGP z0 r0 < 0 →
      (l.foldl (sweepStepP p vold) acc).1 z0 r0 = acc.1 z0 r0 := by
  intro l
  induction l with
  | nil => intro acc z0 r0 _; rfl
  | cons zr rest ih =>
    intro acc z0 r0 hb
    rw [List.foldl_cons, ih _ z0 r0 hb]
    by_cases hc : bulk p.toGP zr.1 zr.2 < 0
    · simp only [sweepStepP, if_pos hc]
    · simp only [sweepStepP, if_neg hc]
      apply upd_ne
      rintro ⟨e1, e2⟩
      rw [e1, e2] at hb
      exact hc hb

theorem sweepP_fixed (p : PParams) (base vold : Plane) (u : UMap) {z0 r0 : ℕ}
    (hb : bulk p.toGP z0 r0 < 0) :
    (sweepP p base vold u).1 z0 r0 = base z0 r0 :=
  sweepP_foldl_fixed p vold _ _ z0 r0 hb

theorem applyBCP_fixed (p : PParams) (g : Plane) {z r : ℕ} (hz : z ≤ p.L)
    (hr : r ≤ p.R) (hb : bulk p.toGP z r < 0) :
    applyBCP p g z r = if isOuter p.toGP z r then p.BV else 0 := by
  unfold applyBCP
  rw [if_pos (show z ≤ p.L ∧ r ≤ p.R from ⟨hz, hr⟩)]
  by_cases ho : isOuter p.toGP z r
  · rw [if_pos ho, if_pos ho]
  · rw [if_neg ho, if_neg ho]
    have hpc : z ≤ p.LC ∧ r ≤ p.RC := by
      by_contra hc
      unfold bulk at hb
      rw [if_neg ho, if_neg hc] at hb
      split_ifs at hb <;> omega
    rw [if_pos hpc]

theorem relaxP_fixed (p : PParams) (g0 g1 : Plane) (u : UMap) :
    ∀ (n : ℕ) {z r : ℕ}, z ≤ p.L → r ≤ p.R → bulk p.toGP z r < 0 →
      (relaxP p g0 g1 u n).1 z r = (if isOuter p.toGP z r then p.BV else 0) ∧
      (relaxP p g0 g1 u n).2.1 z r = (if isOuter p.toGP z r then p.BV else 0) := by
  intro n
  induction n with
  | zero =>
    intro z r hz hr hb
    exact ⟨applyBCP_fixed p g1 hz hr hb, applyBCP_fixed p g0 hz hr hb⟩
  | succ n ih =>
    intro z r hz hr hb
    obtain ⟨ih1, ih2⟩ := ih hz hr hb
    constructor
    · show (sweepP p (relaxP p g0 g1 u n).2.1 (relaxP p g0 g1 u n).1
        (relaxP p g0 g1 u n).2.2.2).1 z r = _
      rw [sweepP_fixed p _ _ _ hb]
      exact ih2
    · exact ih1

theorem bulkW_fixed_outer {w : WParams} {z r : ℕ} (ho : isOuter w.toGP z r)
    (hB : ¬ovrB w z r) : bulkW w z r < 0 := by
  unfold bulkW
  by_cases hs : ovrStar w z r
  · rw [if_pos hs]; norm_num
  · rw [if_neg hs, if_neg hB, bulk_outer ho]; norm_num

theorem bulkW_fixed_pc {w : WParams} {z r : ℕ} (ho : ¬isOuter w.toGP z r)
    (hz : z ≤ w.LC) (hr : r ≤ w.RC) (hre : ¬pcRetag w.toGP z r)
    (hB : ¬ovrB w z r) : bulkW w z r < 0 := by
  unfold bulkW
  by_cases hs : ovrStar w z r
  · rw [if_pos hs]; norm_num
  · rw [if_neg hs, if_neg hB, bulk_pc ho hz hr hre]; norm_num

theorem applyBCW_outer (w : WParams) (g : Plane) {z r : ℕ} (hz : z ≤ w.L)
    (hr : r ≤ w.R) (ho : isOuter w.toGP z r) (hs : ¬ovrStar w z r) :
    applyBCW w g z r = 0 := by
  unfold applyBCW
  rw [if_pos (show z ≤ w.L ∧ r ≤ w.R from ⟨hz, hr⟩), if_neg hs, if_pos ho]

theorem applyBCW_pc (w : WParams) (g : Plane) {z r : ℕ} (hz : z ≤ w.L)
    (hr : r ≤ w.R) (ho : ¬isOuter w.toGP z r) (hzc : z ≤ w.LC)
    (hrc : r ≤ w.RC) : applyBCW w g z r = 1 := by
  unfold applyBCW
  rw [if_pos (show z ≤ w.L ∧ r ≤ w.R from ⟨hz, hr⟩)]
  by_cases hs : ovrStar w z r
  · rw [if_pos hs]
  · rw [if_neg hs, if_neg ho, if_pos (show z ≤ w.LC ∧ r ≤ w.RC from ⟨hzc, hrc⟩)]

theorem sweepW_foldl_fixed (w : WParams) (vold : Plane) :
    ∀ (l : List (ℕ × ℕ)) (acc : Plane × ℚ × ℚ) (z0 r0 : ℕ),
      bulkW w z0 r0 < 0 →
      (l.foldl (sweepStepW w vold) acc).1 z0 r0 = acc.1 z0 r0 := by
  intro l
  induction l with
  | nil => intro acc z0 r0 _; rfl
  | cons zr rest ih =>
    intro acc z0 r0 hb
    rw [List.foldl_cons, ih _ z0 r0 hb]
    by_cases hc : bulkW w zr.1 zr.2 < 0
    · simp only [sweepStepW, if_pos hc]
    · by_cases h3 : bulkW w zr.1 zr.2 = 3
      · simp only [sweepStepW, if_neg hc, if_pos h3]
      · simp only [sweepStepW, if_neg hc, if_neg h3]
        apply upd_ne
        rintro ⟨e1, e2⟩
        rw [e1, e2] at hb
        exact hc hb

theorem sweepW_bcast_fixed (w : WParams) (m : ℚ) :
    ∀ (l : List (ℕ × ℕ)) (q : Plane) (z0 r0 : ℕ), bulkW w z0 r0 < 0 →
      (l.foldl (fun q zr => if bulkW w zr.1 zr.2 = 3 then upd q zr.1 zr.2 m else q) q)
          z0 r0 = q z0 r0 := by
  intro l
  induction l with
  | nil => intro q z0 r0 _; rfl
  | cons zr rest ih =>
    intro q z0 r0 hb
    rw [List.foldl_cons, ih _ z0 r0 hb]
    by_cases h3 : bulkW w zr.1 zr.2 = 3
    · rw [if_pos h3]
      apply upd_ne
      rintro ⟨e1, e2⟩
      rw [e1, e2] at hb
      omega
    · rw [if_neg h3]

theorem sweepW_fixed (w : WParams) (base vold : Plane) {z0 r0 : ℕ}
    (hb : bulkW w z0 r0 < 0) : sweepW w base vold z0 r0 = base z0 r0 := by
  unfold sweepW
  set t := (pixelList w.L w.R).foldl (sweepStepW w vold) (base, 0, 0) with ht
  by_cases hp : t.2.2 > 1 / 10
  · rw [if_pos hp, sweepW_bcast_fixed w _ _ _ z0 r0 hb, ht,
      sweepW_foldl_fixed w vold _ _ z0 r0 hb]
  · rw [if_neg hp, ht, sweepW_foldl_fixed w vold _ _ z0 r0 hb]

theorem applyBCW_fixed (w : WParams) (g : Plane) {z r : ℕ} (hz : z ≤ w.L)
    (hr : r ≤ w.R) (hb : bulkW w z r < 0) :
    applyBCW w g z r =
      if ovrStar w z r then 1 else if isOuter w.toGP z r then 0 else 1 := by
  unfold applyBCW
  rw [if_pos (show z ≤ w.L ∧ r ≤ w.R from ⟨hz, hr⟩)]
  by_cases hs : ovrStar w z r
  · rw [if_pos hs, if_pos hs]
  · rw [if_neg hs, if_neg hs]
    by_cases ho : isOuter w.toGP z r
    · rw [if_pos ho, if_pos ho]
    · rw [if_neg ho, if_neg ho]
      have hpc : z ≤ w.LC ∧ r ≤ w.RC := by
        unfold bulkW at hb
        rw [if_neg hs] at hb
        by_cases hOB : ovrB w z r
        · rw [if_pos hOB] at hb; omega
        · rw [if_neg hOB] at hb
          by_contra hc
          unfold bulk at hb
          rw [if_neg ho, if_neg hc] at hb
          split_ifs at hb <;> omega
      rw [if_pos hpc]

theorem relaxW_fixed (w : WParams) (g0 g1 : Plane) :
    ∀ (n : ℕ) {z r : ℕ}, z ≤ w.L → r ≤ w.R → bulkW w z r < 0 →
      (relaxW w g0 g1 n).1 z r =
        (if ovrStar w z r then 1 else if isOuter w.toGP z r then 0 else 1) ∧
      (relaxW w g0 g1 n).2 z r =
        (if ovrStar w z r then 1 else if isOuter w.toGP z r then 0 else 1) := by
  intro n
  induction n with
  | zero =>
    intro z r hz hr hb
    exact ⟨applyBCW_fixed w g1 hz hr hb, applyBCW_fixed w g0 hz hr hb⟩
  | succ n ih =>
    intro z r hz hr hb
    obtain ⟨ih1, ih2⟩ := ih hz hr hb
    constructor
    · show sweepW w (relaxW w g0 g1 n).2 (relaxW w g0 g1 n).1 z r = _
      rw [sweepW_fixed w _ _ hb]
      exact ih2
    · exact ih1

end Fieldgen

/-- C1 (amended): at every iteration of both relaxation passes every fixed
electrode pixel keeps its Dirichlet value — `BV` on the outer HV contact and
`0` on the point contact in the Poisson pass, `0` and `1` in the weighting
pass — except that point-contact pixels re-tagged as sub-pixel edge pixels
(`z = LC` with `dLC < -0.05`, or `r = RC` with `dRC < -0.05`) are relaxed by
the kernel instead of staying fixed, and weighting-pass pixels overridden by
the undepleted map (`'B'`, and for the outer contact also `'*'`) leave the
fixed set. -/
theorem C1_electrode_boundary_fixed :
    (∀ (p : Fieldgen.PParams) (g0 g1 : Fieldgen.Plane) (u : Fieldgen.UMap)
       (n z r : ℕ), z ≤ p.L → r ≤ p.R →
       (Fieldgen.isOuter p.toGP z r →
         (Fieldgen.relaxP p g0 g1 u n).1 z r = p.BV) ∧
       (¬Fieldgen.isOuter p.toGP z r → z ≤ p.LC → r ≤ p.RC →
         ¬Fieldgen.pcRetag p.toGP z r →
         (Fieldgen.relaxP p g0 g1 u n).1 z r = 0)) ∧
    (∀ (w : Fieldgen.WParams) (g0 g1 : Fieldgen.Plane) (n z r : ℕ),
       z ≤ w.L → r ≤ w.R → ¬Fieldgen.ovrB w z r →
       (Fieldgen.isOuter w.toGP z r → ¬Fieldgen.ovrStar w z r →
         (Fieldgen.relaxW w g0 g1 n).1 z r = 0) ∧
       (¬Fieldgen.isOuter w.toGP z r → z ≤ w.LC → r ≤ w.RC →
         ¬Fieldgen.pcRetag w.toGP z r →
         (Fieldgen.relaxW w g0 g1 n).1 z r = 1)) := by
  constructor
  · intro p g0 g1 u n z r hz hr
    constructor
    · intro ho
      rw [(Fieldgen.relaxP_fixed p g0 g1 u n hz hr
        (by rw [Fieldgen.bulk_outer ho]; norm_num)).1, if_pos ho]
    · intro ho hzc hrc hre
      rw [(Fieldgen.relaxP_fixed p g0 g1 u n hz hr
        (by rw [Fieldgen.bulk_pc ho hzc hrc hre]; norm_num)).1, if_neg ho]
  · intro w g0 g1 n z r hz hr hB
    constructor
    · intro ho hs
      rw [(Fieldgen.relaxW_fixed w g0 g1 n hz hr
        (Fieldgen.bulkW_fixed_outer ho hB)).1, if_neg hs, if_pos ho]
    · intro ho hzc hrc hre
      rw [(Fieldgen.relaxW_fixed w g0 g1 n hz hr
        (Fieldgen.bulkW_fixed_pc ho hzc hrc hre hB)).1]
      by_cases hs : Fieldgen.ovrStar w z r
      · rw [if_pos hs]
      · rw [if_neg hs, if_neg ho]

/-- C1 witness: the invariant applied to concrete configurations after two
iterations — an outer-contact pixel of the Poisson pass and a point-contact
pixel of the weighting pass. -/
theorem C1_electrode_boundary_fixed_witness :
    (Fieldgen.relaxP Fieldgen.pCex Fieldgen.zeroPlane Fieldgen.zeroPlane
        Fieldgen.blankU 2).1 3 0 = Fieldgen.pCex.BV ∧
    (Fieldgen.relaxW Fieldgen.wCex Fieldgen.zeroPlane Fieldgen.zeroPlane 2).1 1 1 = 1 :=
  ⟨(C1_electrode_boundary_fixed.1 Fieldgen.pCex Fieldgen.zeroPlane
      Fieldgen.zeroPlane Fieldgen.blankU 2 3 0
      (by norm_num [Fieldgen.pCex]) (by norm_num [Fieldgen.pCex])).1
      (by norm_num [Fieldgen.isOuter, Fieldgen.pCex]),
   (C1_electrode_boundary_fixed.2 Fieldgen.wCex Fieldgen.zeroPlane
      Fieldgen.zeroPlane 2 1 1
      (by norm_num [Fieldgen.wCex]) (by norm_num [Fieldgen.wCex])
      (by norm_num [Fieldgen.ovrB, Fieldgen.wCex])).2
      (by norm_num [Fieldgen.isOuter, Fieldgen.wCex])
      (by norm_num [Fieldgen.wCex]) (by norm_num [Fieldgen.wCex])
      (by norm_num [Fieldgen.pcRetag, Fieldgen.wCex])⟩

/-- C1 counterexample: in the Poisson pass of configuration `pCex`
(`dRC = -0.1`), the point-contact pixel `(z, r) = (1, 2)` — which satisfies
`z <= LC` and `r <= RC` — is re-tagged as a sub-pixel radial edge pixel and
after the first iteration no longer holds 0, refuting the claim that every
point-contact pixel holds exactly 0 at every iteration. -/
theorem C1_pc_edge_counterexample :
    1 ≤ Fieldgen.pCex.LC ∧ 2 ≤ Fieldgen.pCex.RC ∧
    (Fieldgen.relaxP Fieldgen.pCex (Fieldgen.initGuess Fieldgen.pCex)
        (Fieldgen.initGuess Fieldgen.pCex) Fieldgen.blankU 1).1 1 2 ≠ 0 := by
  refine ⟨by norm_num [Fieldgen.pCex], by norm_num [Fieldgen.pCex], ?_⟩
  norm_num [Fieldgen.relaxP, Fieldgen.sweepP, Fieldgen.sweepStepP,
    Fieldgen.applyBCP, Fieldgen.initGuess, Fieldgen.pixelList, Fieldgen.kernel,
    Fieldgen.kbulk0, Fieldgen.kbulk1, Fieldgen.kbulk2, Fieldgen.bulk,
    Fieldgen.isOuter, Fieldgen.inDitch, Fieldgen.eps, Fieldgen.eps_dr,
    Fieldgen.eps_dz, Fieldgen.s1, Fieldgen.s2, Fieldgen.fRC, Fieldgen.fLC,
    Fieldgen.vfraction, Fieldgen.clampPixel, Fieldgen.upd, Fieldgen.updM,
    Fieldgen.pCex, Fieldgen.blankU, List.range, List.range.loop]

namespace Fieldgen

theorem clampPixel_nonneg (vnew mn bub : ℚ) (_hm : 0 ≤ mn) (hb : 0 ≤ bub) :
    0 ≤ (clampPixel vnew mn bub).1 ∧ 0 ≤ (clampPixel vnew mn bub).2.1 := by
  unfold clampPixel
  split_ifs with h1 h2 h3 <;> constructor <;> simp_all <;> linarith

theorem kernel_min_nonneg (gp : GP) (bk : ℕ → ℕ → ℤ) (v : Plane) (z r : ℕ)
    (h : ∀ a b, 0 ≤ v a b) : 0 ≤ (kernel gp bk v z r).2.2 := by
  unfold kernel kbulk0 kbulk1 kbulk2
  split_ifs <;> simp [le_min_iff, h]

theorem upd_nonneg (f : Plane) (z r : ℕ) (x : ℚ) (hx : 0 ≤ x)
    (hf : ∀ a b, 0 ≤ f a b) : ∀ a b, 0 ≤ upd f z r x a b := by
  intro a b
  unfold upd
  split_ifs
  · exact hx
  · exact hf a b

theorem sweepP_foldl_nonneg (p : PParams) (vold : Plane)
    (hv : ∀ a b, 0 ≤ vold a b) :
    ∀ (l : List (ℕ × ℕ)) (acc : Plane × ℚ × UMap),
      (∀ a b, 0 ≤ acc.1 a b) → 0 ≤ acc.2.1 →
      (∀ a b, 0 ≤ (l.foldl (sweepStepP p vold) acc).1 a b) ∧
        0 ≤ (l.foldl (sweepStepP p vold) acc).2.1 := by
  intro l
  induction l with
  | nil => intro acc h1 h2; exact ⟨h1, h2⟩
  | cons zr rest ih =>
    intro acc h1 h2
    rw [List.foldl_cons]
    refine ih (sweepStepP p vold acc zr) ?_ ?_
    · by_cases hc : bulk p.toGP zr.1 zr.2 < 0
      · simp only [sweepStepP, if_pos hc]; exact h1
      · simp only [sweepStepP, if_neg hc]
        exact upd_nonneg _ _ _ _
          (clampPixel_nonneg _ _ _ (kernel_min_nonneg _ _ _ _ _ hv) h2).1 h1
    · by_cases hc : bulk p.toGP zr.1 zr.2 < 0
      · simp only [sweepStepP, if_pos hc]; exact h2
      · simp only [sweepStepP, if_neg hc]
        exact (clampPixel_nonneg _ _ _ (kernel_min_nonneg _ _ _ _ _ hv) h2).2

theorem applyBCP_nonneg (p : PParams) (g : Plane) (hB : 0 ≤ p.BV)
    (hg : ∀ a b, 0 ≤ g a b) : ∀ z r, 0 ≤ applyBCP p g z r := by
  intro z r
  unfold applyBCP
  split_ifs <;> first | exact hB | exact hg z r | norm_num

theorem relaxP_nonneg (p : PParams) (g0 g1 : Plane) (u : UMap) (hB : 0 ≤ p.BV)
    (h0 : ∀ a b, 0 ≤ g0 a b) (h1 : ∀ a b, 0 ≤ g1 a b) :
    ∀ n, (∀ z r, 0 ≤ (relaxP p g0 g1 u n).1 z r) ∧
      (∀ z r, 0 ≤ (relaxP p g0 g1 u n).2.1 z r) := by
  intro n
  induction n with
  | zero => exact ⟨applyBCP_nonneg p g1 hB h1, applyBCP_nonneg p g0 hB h0⟩
  | succ n ih =>
    obtain ⟨ihc, ihp⟩ := ih
    refine ⟨?_, ihc⟩
    have hs := sweepP_foldl_nonneg p (relaxP p g0 g1 u n).1 ihc
      (pixelList p.L p.R)
      ((relaxP p g0 g1 u n).2.1, 0, (relaxP p g0 g1 u n).2.2.2)
      ihp (le_refl 0)
    exact hs.1

end Fieldgen

/-- C2 (amended): the Poisson clamping step clamps to 0 every value that is
nonpositive (not only strictly negative); when a positive value drops below
the minimum of the neighbors used in its update, the sweep's `bubble_volts`
is latched on the first such pixel as that minimum plus 0.1 volt (not as the
pixel's own value) and the value is forced to `bubble_volts`; consequently
every pixel value is non-negative after every Poisson sweep (pixels are
marked undepleted only when their charge-volume fraction exceeds 0.45). -/
theorem C2_space_charge_clamp :
    (∀ vnew mn bub : ℚ,
      (vnew ≤ 0 → Fieldgen.clampPixel vnew mn bub = (0, bub, true)) ∧
      (0 < vnew → vnew < mn → bub = 0 →
        Fieldgen.clampPixel vnew mn bub = (mn + 1 / 10, mn + 1 / 10, true)) ∧
      (0 < vnew → vnew < mn → bub ≠ 0 →
        Fieldgen.clampPixel vnew mn bub = (bub, bub, true)) ∧
      (0 < vnew → ¬vnew < mn →
        Fieldgen.clampPixel vnew mn bub = (vnew, bub, false))) ∧
    (∀ (p : Fieldgen.PParams) (g0 g1 : Fieldgen.Plane) (u : Fieldgen.UMap)
       (n : ℕ), 0 ≤ p.BV → (∀ a b, 0 ≤ g0 a b) → (∀ a b, 0 ≤ g1 a b) →
       ∀ z r, 0 ≤ (Fieldgen.relaxP p g0 g1 u n).1 z r) := by
  constructor
  · intro vnew mn bub
    refine ⟨?_, ?_, ?_, ?_⟩
    · intro h
      unfold Fieldgen.clampPixel
      rw [if_pos h]
    · intro h1 h2 h3
      unfold Fieldgen.clampPixel
      rw [if_neg (by linarith), if_pos h2]
      simp [h3]
    · intro h1 h2 h3
      unfold Fieldgen.clampPixel
      rw [if_neg (by linarith), if_pos h2]
      simp [h3]
    · intro h1 h2
      unfold Fieldgen.clampPixel
      rw [if_neg (by linarith), if_neg h2]
  · intro p g0 g1 u n hB h0 h1 z r
    exact (Fieldgen.relaxP_nonneg p g0 g1 u hB h0 h1 n).1 z r

/-- C2 witness: non-negativity applied to the concrete configuration `pCex`
after one iteration, at the sub-pixel edge pixel. -/
theorem C2_space_charge_clamp_witness :
    (0 : ℚ) ≤ Fieldgen.pCex.BV ∧
    0 ≤ (Fieldgen.relaxP Fieldgen.pCex Fieldgen.zeroPlane Fieldgen.zeroPlane
      Fieldgen.blankU 1).1 1 2 :=
  ⟨by norm_num [Fieldgen.pCex],
   C2_space_charge_clamp.2 Fieldgen.pCex Fieldgen.zeroPlane Fieldgen.zeroPlane
     Fieldgen.blankU 1 (by norm_num [Fieldgen.pCex]) (fun _ _ => le_refl 0)
     (fun _ _ => le_refl 0) 1 2⟩

/-- C2 counterexample: when a computed value of 1/2 falls below a neighbor
minimum of 1 with no bubble latched yet, the code records
`bubble_volts = min + 0.1 = 1.1` and forces the pixel to 1.1, while the
claim's reading records the pixel's own value 1/2; the clamp branch also
fires at exactly 0. -/
theorem C2_bubble_volts_counterexample :
    Fieldgen.clampPixel (1 / 2) 1 0 = (11 / 10, 11 / 10, true) ∧
    Fieldgen.clampPixel_per_claim (1 / 2) 1 0 = (1 / 2, 1 / 2, true) ∧
    Fieldgen.clampPixel (1 / 2) 1 0 ≠ Fieldgen.clampPixel_per_claim (1 / 2) 1 0 ∧
    Fieldgen.clampPixel 0 1 5 = (0, 5, true) ∧
    Fieldgen.clampPixel_per_claim 0 1 5 = (5, 5, true) := by
  refine ⟨?_, ?_, ?_, ?_, ?_⟩ <;>
    norm_num [Fieldgen.clampPixel, Fieldgen.clampPixel_per_claim]

/-- C3: for a start point inside the detector, get_signal fails (returns a
negative status) iff the hole-carrier make_signal invocation inside it fails;
a failure of the electron invocation alone never makes get_signal fail, and
on success the status is the positive value 1. -/
theorem C3_hole_failure_decides (env : Sig.SigEnv) (su : Sig.SigSetup)
    (pt : Sig.Vec3) (st : Sig.Statics) (sm : Sig.SetupMut)
    (h : env.outside_detector pt = false) :
    ((Sig.get_signal env su pt st sm).status < 0 ↔
      (Sig.gs_hole env su pt st sm).err ≠ 0) ∧
    ((Sig.gs_hole env su pt st sm).err = 0 →
      (Sig.get_signal env su pt st sm).status = 1) := by
  unfold Sig.get_signal
  rw [if_neg (by simp [h])]
  by_cases he : (Sig.gs_hole env su pt st sm).err = 0
  · constructor
    · simp [he]
    · intro _
      simp [he]
  · constructor
    · simp [he]
    · intro hc
      exact absurd hc he

/-- C3 witness: a start point inside a concrete field environment whose hole
drift fails. -/
theorem C3_hole_failure_decides_witness :
    Sig.env9.outside_detector Sig.pt9b = false ∧
    ((Sig.get_signal Sig.env9 Sig.setup9 Sig.pt9b Sig.st0 Sig.sm0).status < 0 ↔
      (Sig.gs_hole Sig.env9 Sig.setup9 Sig.pt9b Sig.st0 Sig.sm0).err ≠ 0) :=
  ⟨rfl,
   (C3_hole_failure_decides Sig.env9 Sig.setup9 Sig.pt9b Sig.st0 Sig.sm0 rfl).1⟩

/-- C5 (amended): make_signal fails when the very first drift step is
already outside the field; when the post-field drift exhausts the time-step
budget, it returns the truncation failure for holes and also for electrons
whose last weighting potential exceeds WP_THRESH_ELECTRONS = 0.99, and
succeeds (absorbing the exhaustion) for the remaining electrons. -/
theorem C5_truncation_budget (env : Sig.SigEnv) (su : Sig.SigSetup)
    (pt : Sig.Vec3) (q : ℚ) (sig : List ℚ) (st : Sig.Statics)
    (sm : Sig.SetupMut) (dw0 : ℚ) (t : ℕ) (s : Sig.LoopSt) :
    (env.drift_velocity pt q = none →
      (Sig.make_signal env su pt q sig st sm).err = -1) ∧
    (su.time_steps_calc ≤
        (if (Sig.tailSearch env su.time_steps_calc t s.dx su.time_steps_calc
              0 s.new_pt).1 = 0 then 1
         else (Sig.tailSearch env su.time_steps_calc t s.dx su.time_steps_calc
              0 s.new_pt).1) + t →
      ((Sig.ms_tail env su q dw0 t s).err = -1 ↔
        (q > 0 ∨ s.st.wpot > Sig.WP_THRESH_ELECTRONS)) ∧
      (¬(q > 0 ∨ s.st.wpot > Sig.WP_THRESH_ELECTRONS) →
        (Sig.ms_tail env su q dw0 t s).err = 0)) := by
  constructor
  · intro hd
    unfold Sig.make_signal
    simp [Sig.msLoop, hd]
  · intro hbudget
    unfold Sig.ms_tail
    by_cases hq : q > 0 ∨ s.st.wpot > Sig.WP_THRESH_ELECTRONS
    · rw [if_pos ⟨hbudget, hq⟩]
      exact ⟨⟨fun _ => hq, fun _ => rfl⟩, fun hn => absurd hq hn⟩
    · rw [if_neg (fun hc => hq hc.2)]
      constructor
      · constructor
        · intro he
          exact absurd he (by norm_num)
        · intro hh
          exact absurd hh hq
      · intro _
        rfl

/-- C5 witness: the tail-truncation characterization applied at a concrete
electron state (q = -1, wpot = 0.995) with an exhausted budget. -/
theorem C5_truncation_budget_witness :
    (Sig.ms_tail Sig.env5 Sig.setup9 (-1) 0 2
      { new_pt := ⟨0, 0, 2⟩, v := ⟨0, 0, 1⟩, dx := ⟨0, 0, 1⟩, vel1 := 0,
        signal := Sig.gs_sigInit Sig.setup9,
        st := ⟨199 / 200, 199 / 200⟩, sm := Sig.sm0 }).err = -1 := by
  have h := ((C5_truncation_budget Sig.env5 Sig.setup9 ⟨0, 0, 0⟩ (-1)
    (Sig.gs_sigInit Sig.setup9) Sig.st0 Sig.sm0 0 2
    { new_pt := ⟨0, 0, 2⟩, v := ⟨0, 0, 1⟩, dx := ⟨0, 0, 1⟩, vel1 := 0,
      signal := Sig.gs_sigInit Sig.setup9,
      st := ⟨199 / 200, 199 / 200⟩, sm := Sig.sm0 }).2 ?_).1.mpr ?_
  · exact h
  · norm_num [Sig.tailSearch, Sig.env5, Sig.setup9, Sig.vadd]
  · right
    norm_num [Sig.WP_THRESH_ELECTRONS]

/-- C5 counterexample: a concrete electron (q = -1) drift that leaves the
field grid at its third step and exhausts the five-step budget returns the
truncation failure even though it is an electron. -/
theorem C5_electron_truncation_counterexample :
    Sig.env5.drift_velocity ⟨0, 0, 0⟩ (-1) ≠ none ∧
    (Sig.make_signal Sig.env5 Sig.setup9 ⟨0, 0, 0⟩ (-1)
      (Sig.gs_sigInit Sig.setup9) Sig.st0 Sig.sm0).err = -1 := by
  constructor
  · norm_num [Sig.env5]
    simp
  · norm_num [Sig.make_signal, Sig.msLoop, Sig.msVel, Sig.ms_tail,
      Sig.tailSearch, Sig.smearLoop, Sig.env5, Sig.setup9, Sig.st0, Sig.sm0,
      Sig.gs_sigInit, Sig.collect2pc, Sig.vadd, Sig.vscale, Sig.vlen,
      Sig.WP_THRESH_ELECTRONS, listAdd, Sig.diffusionCoefH, Sig.diffusionCoefE]

theorem listAdd_getD0 (s : List ℚ) (t : ℕ) (x : ℚ) (h : 0 < t) :
    (listAdd s t x).getD 0 0 = s.getD 0 0 :=
  getD_set_ne s _ (by omega)

namespace Sig

theorem msVel_signal (env : SigEnv) (su : SigSetup) (q : ℚ) (t : ℕ)
    (v0 : Vec3) (s : LoopSt) : (msVel env su q t v0 s).signal = s.signal := by
  unfold msVel
  split_ifs <;> rfl

theorem msVel_st (env : SigEnv) (su : SigSetup) (q : ℚ) (t : ℕ)
    (v0 : Vec3) (s : LoopSt) : (msVel env su q t v0 s).st = s.st := by
  unfold msVel
  split_ifs <;> rfl

theorem msVel_new_pt (env : SigEnv) (su : SigSetup) (q : ℚ) (t : ℕ)
    (v0 : Vec3) (s : LoopSt) : (msVel env su q t v0 s).new_pt = s.new_pt := by
  unfold msVel
  split_ifs <;> rfl

theorem msLoop_getD0 (env : SigEnv) (su : SigSetup) (q : ℚ) :
    ∀ (fuel t : ℕ) (s : LoopSt),
      ((msLoop env su q fuel t s).2.2.signal).getD 0 0 = s.signal.getD 0 0 := by
  intro fuel
  induction fuel with
  | zero => intro t s; rfl
  | succ fuel ih =>
    intro t s
    rw [msLoop]
    cases hd : env.drift_velocity s.new_pt q with
    | none => rfl
    | some v0 =>
      dsimp only
      by_cases hbr : su.time_steps_calc - 2 ≤ t
      · rw [if_pos hbr]
        dsimp only
        rw [msVel_signal]
      · rw [if_neg hbr]
        cases hw : env.wpotential (msVel env su q t v0 s).new_pt with
        | none =>
          dsimp only
          rw [msVel_signal]
        | some w =>
          dsimp only
          by_cases htp : 0 < t
          · rw [if_pos htp]
            split_ifs
            · dsimp only
              rw [listAdd_getD0 _ _ _ htp, msVel_signal]
            · rw [ih]
              dsimp only
              rw [listAdd_getD0 _ _ _ htp, msVel_signal]
          · rw [if_neg htp]
            split_ifs
            · dsimp only
              rw [msVel_signal]
            · rw [ih]
              dsimp only
              rw [msVel_signal]

theorem smearLoop_getD0 (q dwp : ℚ) (t : ℕ) (ht : 0 < t) :
    ∀ (n : ℕ) (sig : List ℚ),
      (smearLoop q dwp t n sig).getD 0 0 = sig.getD 0 0 := by
  intro n
  induction n with
  | zero => intro sig; rfl
  | succ n ih =>
    intro sig
    show (listAdd (smearLoop q dwp t n sig) (n + t) (q * dwp)).getD 0 0 = _
    rw [listAdd_getD0 _ _ _ (by omega), ih]

theorem ms_tail_getD0 (env : SigEnv) (su : SigSetup) (q dw0 : ℚ) (t : ℕ)
    (s : LoopSt) (ht : 0 < t) :
    ((ms_tail env su q dw0 t s).signal).getD 0 0 = s.signal.getD 0 0 := by
  unfold ms_tail
  dsimp only
  split_ifs <;> first | rfl | rw [smearLoop_getD0 q _ t ht]

end Sig

/-- C10: make_signal never modifies index 0 of the signal array — the main
drift loop writes only under the `t > 0` guard and the tail smearing writes
at indices `i + t` with `t >= 1` — so the raw current sample at step 0 in
get_signal is always zero before the current-to-charge prefix sum. -/
theorem C10_signal_index0_frame :
    (∀ (env : Sig.SigEnv) (su : Sig.SigSetup) (pt : Sig.Vec3) (q : ℚ)
       (sig : List ℚ) (st : Sig.Statics) (sm : Sig.SetupMut),
       ((Sig.make_signal env su pt q sig st sm).signal).getD 0 0 =
         sig.getD 0 0) ∧
    (∀ (env : Sig.SigEnv) (su : Sig.SigSetup) (pt : Sig.Vec3)
       (st : Sig.Statics) (sm : Sig.SetupMut),
       ((Sig.gs_hole env su pt st sm).signal).getD 0 0 = 0) := by
  have hms : ∀ (env : Sig.SigEnv) (su : Sig.SigSetup) (pt : Sig.Vec3) (q : ℚ)
      (sig : List ℚ) (st : Sig.Statics) (sm : Sig.SetupMut),
      ((Sig.make_signal env su pt q sig st sm).signal).getD 0 0 =
        sig.getD 0 0 := by
    intro env su pt q sig st sm
    unfold Sig.make_signal
    dsimp only
    split_ifs with h1 h2 h3
    all_goals first
      | exact Sig.msLoop_getD0 env su q _ 0 _
      | (rw [Sig.ms_tail_getD0 env su q _ _ _ (by omega)]
         exact Sig.msLoop_getD0 env su q _ 0 _)
  constructor
  · exact hms
  · intro env su pt st sm
    unfold Sig.gs_hole Sig.gs_electron
    dsimp only
    rw [hms, hms]
    unfold Sig.gs_sigInit
    rcases Nat.eq_zero_or_pos su.time_steps_calc with h0 | hpos
    · rw [h0]; rfl
    · simp [List.getD_eq_getElem?_getD, List.getElem?_replicate, hpos]


namespace Sig

theorem msVel_mk_st (env : SigEnv) (su : SigSetup) (q : ℚ) (t : ℕ) (v0 : Vec3)
    (p v dx : Vec3) (vel1 : ℚ) (sig : List ℚ) (st1 st2 : LoopStat)
    (sm : SetupMut) :
    msVel env su q t v0 ⟨p, v, dx, vel1, sig, st1, sm⟩ =
      { msVel env su q t v0 ⟨p, v, dx, vel1, sig, st2, sm⟩ with st := st1 } := by
  unfold msVel
  split_ifs <;> rfl

theorem msLoop_wpot_start (env : SigEnv) (su : SigSetup) (q : ℚ) (fuel : ℕ)
    (p v dx : Vec3) (vel1 : ℚ) (sig : List ℚ) (wA wB wo : ℚ) (sm : SetupMut) :
    ((msLoop env su q fuel 0 ⟨p, v, dx, vel1, sig, ⟨wA, wo⟩, sm⟩).2.1 =
        (msLoop env su q fuel 0 ⟨p, v, dx, vel1, sig, ⟨wB, wo⟩, sm⟩).2.1) ∧
    ((msLoop env su q fuel 0 ⟨p, v, dx, vel1, sig, ⟨wA, wo⟩, sm⟩).2.2.signal =
        (msLoop env su q fuel 0 ⟨p, v, dx, vel1, sig, ⟨wB, wo⟩, sm⟩).2.2.signal) ∧
    ((msLoop env su q fuel 0 ⟨p, v, dx, vel1, sig, ⟨wA, wo⟩, sm⟩).2.2.sm =
        (msLoop env su q fuel 0 ⟨p, v, dx, vel1, sig, ⟨wB, wo⟩, sm⟩).2.2.sm) ∧
    ((msLoop env su q fuel 0 ⟨p, v, dx, vel1, sig, ⟨wA, wo⟩, sm⟩).2.2.st.wpot_old =
        (msLoop env su q fuel 0 ⟨p, v, dx, vel1, sig, ⟨wB, wo⟩, sm⟩).2.2.st.wpot_old) ∧
    ((msLoop env su q fuel 0 ⟨p, v, dx, vel1, sig, ⟨wB, wo⟩, sm⟩).2.1 ≠ 0 →
      msLoop env su q fuel 0 ⟨p, v, dx, vel1, sig, ⟨wA, wo⟩, sm⟩ =
        msLoop env su q fuel 0 ⟨p, v, dx, vel1, sig, ⟨wB, wo⟩, sm⟩) := by
  cases fuel with
  | zero => exact ⟨rfl, rfl, rfl, rfl, fun h => absurd rfl h⟩
  | succ fuel =>
    rw [msLoop, msLoop]
    dsimp only
    cases hd : env.drift_velocity p q with
    | none => exact ⟨rfl, rfl, rfl, rfl, fun h => absurd rfl h⟩
    | some v0 =>
      dsimp only
      rw [msVel_mk_st env su q 0 v0 p v dx vel1 sig ⟨wA, wo⟩ ⟨wB, wo⟩ sm]
      rw [msVel_st env su q 0 v0 ⟨p, v, dx, vel1, sig, ⟨wB, wo⟩, sm⟩]
      dsimp only
      by_cases hbr : su.time_steps_calc - 2 ≤ 0
      · rw [if_pos hbr, if_pos hbr]
        refine ⟨rfl, rfl, rfl, ?_, fun h => absurd rfl h⟩
        dsimp only
        rw [msVel_st]
      · rw [if_neg hbr, if_neg hbr]
        cases hw : env.wpotential
            (msVel env su q 0 v0 ⟨p, v, dx, vel1, sig, ⟨wB, wo⟩, sm⟩).new_pt with
        | none =>
          refine ⟨rfl, rfl, rfl, ?_, fun h => absurd rfl h⟩
          dsimp only
          rw [msVel_st]
        | some w => exact ⟨rfl, rfl, rfl, rfl, fun _ => rfl⟩

theorem ms_tail_dw (env : SigEnv) (su : SigSetup) (q dA dB : ℚ) (t : ℕ)
    (s : LoopSt) :
    (ms_tail env su q dA t s).err = (ms_tail env su q dB t s).err ∧
    (ms_tail env su q dA t s).signal = (ms_tail env su q dB t s).signal ∧
    (ms_tail env su q dA t s).sm = (ms_tail env su q dB t s).sm ∧
    (ms_tail env su q dA t s).st.wpot_old =
      (ms_tail env su q dB t s).st.wpot_old := by
  unfold ms_tail
  dsimp only
  split_ifs <;> exact ⟨rfl, rfl, rfl, rfl⟩

theorem make_signal_st (env : SigEnv) (su : SigSetup) (pt : Vec3) (q : ℚ)
    (sig : List ℚ) (stA stB : Statics) (sm : SetupMut)
    (hwo : stA.wpot_old = stB.wpot_old) :
    (make_signal env su pt q sig stA sm).err =
      (make_signal env su pt q sig stB sm).err ∧
    (make_signal env su pt q sig stA sm).signal =
      (make_signal env su pt q sig stB sm).signal ∧
    (make_signal env su pt q sig stA sm).sm =
      (make_signal env su pt q sig stB sm).sm ∧
    (make_signal env su pt q sig stA sm).st.wpot_old =
      (make_signal env su pt q sig stB sm).st.wpot_old := by
  obtain ⟨wA, woA, dA⟩ := stA
  obtain ⟨wB, woB, dB⟩ := stB
  dsimp only at hwo
  subst hwo
  obtain ⟨h1, h2, h3, h4, h5⟩ := msLoop_wpot_start env su q
    (su.time_steps_calc + 1) pt ⟨0, 0, 0⟩ ⟨0, 0, 0⟩ 0 sig wA wB woA sm
  unfold make_signal
  dsimp only
  by_cases hz : (msLoop env su q (su.time_steps_calc + 1) 0
      ⟨pt, ⟨0, 0, 0⟩, ⟨0, 0, 0⟩, 0, sig, ⟨wB, woA⟩, sm⟩).2.1 = 0
  · have hzA : (msLoop env su q (su.time_steps_calc + 1) 0
        ⟨pt, ⟨0, 0, 0⟩, ⟨0, 0, 0⟩, 0, sig, ⟨wA, woA⟩, sm⟩).2.1 = 0 :=
      h1.trans hz
    by_cases hA1 : (msLoop env su q (su.time_steps_calc + 1) 0
          ⟨pt, ⟨0, 0, 0⟩, ⟨0, 0, 0⟩, 0, sig, ⟨wA, woA⟩, sm⟩).1 = ExitK.wpFail ∨
        (msLoop env su q (su.time_steps_calc + 1) 0
          ⟨pt, ⟨0, 0, 0⟩, ⟨0, 0, 0⟩, 0, sig, ⟨wA, woA⟩, sm⟩).1 = ExitK.fuelOut <;>
      by_cases hB1 : (msLoop env su q (su.time_steps_calc + 1) 0
          ⟨pt, ⟨0, 0, 0⟩, ⟨0, 0, 0⟩, 0, sig, ⟨wB, woA⟩, sm⟩).1 = ExitK.wpFail ∨
        (msLoop env su q (su.time_steps_calc + 1) 0
          ⟨pt, ⟨0, 0, 0⟩, ⟨0, 0, 0⟩, 0, sig, ⟨wB, woA⟩, sm⟩).1 = ExitK.fuelOut
    · rw [if_pos hA1, if_pos hB1]
      exact ⟨rfl, h2, h3, h4⟩
    · rw [if_pos hA1, if_neg hB1, if_pos hz]
      exact ⟨rfl, h2, h3, h4⟩
    · rw [if_neg hA1, if_pos hB1, if_pos hzA]
      exact ⟨rfl, h2, h3, h4⟩
    · rw [if_neg hA1, if_neg hB1, if_pos hzA, if_pos hz]
      exact ⟨rfl, h2, h3, h4⟩
  · rw [h5 hz]
    by_cases hB1 : (msLoop env su q (su.time_steps_calc + 1) 0
        ⟨pt, ⟨0, 0, 0⟩, ⟨0, 0, 0⟩, 0, sig, ⟨wB, woA⟩, sm⟩).1 = ExitK.wpFail ∨
      (msLoop env su q (su.time_steps_calc + 1) 0
        ⟨pt, ⟨0, 0, 0⟩, ⟨0, 0, 0⟩, 0, sig, ⟨wB, woA⟩, sm⟩).1 = ExitK.fuelOut
    · rw [if_pos hB1, if_pos hB1]
      exact ⟨rfl, rfl, rfl, rfl⟩
    · rw [if_neg hB1, if_neg hB1, if_neg hz, if_neg hz]
      by_cases hlo : (match (msLoop env su q (su.time_steps_calc + 1) 0
          ⟨pt, ⟨0, 0, 0⟩, ⟨0, 0, 0⟩, 0, sig, ⟨wB, woA⟩, sm⟩).1 with
          | ExitK.stepBreak b => b
          | ExitK.hackBreak => true
          | _ => false) = true
      · rw [if_pos hlo, if_pos hlo]
        exact ⟨rfl, rfl, rfl, rfl⟩
      · rw [if_neg hlo, if_neg hlo]
        exact ms_tail_dw env su q dA dB _ _

theorem gs_hole_st (env : SigEnv) (su : SigSetup) (pt : Vec3)
    (stA stB : Statics) (sm : SetupMut) (hwo : stA.wpot_old = stB.wpot_old) :
    (gs_hole env su pt stA sm).err = (gs_hole env su pt stB sm).err ∧
    (gs_hole env su pt stA sm).signal = (gs_hole env su pt stB sm).signal ∧
    (gs_hole env su pt stA sm).sm = (gs_hole env su pt stB sm).sm := by
  obtain ⟨he, hs, hm, hw⟩ :=
    make_signal_st env su pt (-1) (gs_sigInit su) stA stB sm hwo
  unfold gs_hole gs_electron
  dsimp only
  rw [← hs, ← hm]
  obtain ⟨he2, hs2, hm2, hw2⟩ := make_signal_st env su pt 1
    (make_signal env su pt (-1) (gs_sigInit su) stA sm).signal
    (make_signal env su pt (-1) (gs_sigInit su) stA sm).st
    (make_signal env su pt (-1) (gs_sigInit su) stB sm).st
    (make_signal env su pt (-1) (gs_sigInit su) stA sm).sm hw
  exact ⟨he2, hs2, hm2⟩

end Sig

/-- C9 (amended): the result of get_signal (return status and output
waveform) is a function of its arguments together with the `wpot_old` value
left in the function-static state of `make_signal` by earlier calls in the
same process: two calls with identical arguments and identical static
`wpot_old` produce identical status and output, independently of the static
`wpot` and `dwpot`; calls whose static `wpot_old` histories differ can
produce different outputs (see the counterexample). -/
theorem C9_static_state_dependence (env : Sig.SigEnv) (su : Sig.SigSetup)
    (pt : Sig.Vec3) (stA stB : Sig.Statics) (sm : Sig.SetupMut)
    (hwo : stA.wpot_old = stB.wpot_old) :
    (Sig.get_signal env su pt stA sm).status =
      (Sig.get_signal env su pt stB sm).status ∧
    (Sig.get_signal env su pt stA sm).out =
      (Sig.get_signal env su pt stB sm).out := by
  obtain ⟨he, hs, hm⟩ := Sig.gs_hole_st env su pt stA stB sm hwo
  unfold Sig.get_signal
  by_cases ho : env.outside_detector pt = true
  · rw [if_pos ho, if_pos ho]
    exact ⟨rfl, rfl⟩
  · rw [if_neg ho, if_neg ho]
    dsimp only
    rw [he, hs, hm]
    exact ⟨rfl, rfl⟩

/-- C9 witness: two concrete calls whose statics agree on `wpot_old` but
differ in `wpot` and `dwpot` get the same status and output. -/
theorem C9_static_state_dependence_witness :
    (Sig.Statics.mk 7 2 5).wpot_old = (Sig.Statics.mk 0 2 0).wpot_old ∧
    ((Sig.get_signal Sig.env9 Sig.setup9 Sig.pt9b ⟨7, 2, 5⟩ Sig.sm0).status =
        (Sig.get_signal Sig.env9 Sig.setup9 Sig.pt9b ⟨0, 2, 0⟩ Sig.sm0).status ∧
      (Sig.get_signal Sig.env9 Sig.setup9 Sig.pt9b ⟨7, 2, 5⟩ Sig.sm0).out =
        (Sig.get_signal Sig.env9 Sig.setup9 Sig.pt9b ⟨0, 2, 0⟩ Sig.sm0).out) :=
  ⟨rfl, C9_static_state_dependence Sig.env9 Sig.setup9 Sig.pt9b
    ⟨7, 2, 5⟩ ⟨0, 2, 0⟩ Sig.sm0 rfl⟩

set_option maxHeartbeats 2000000 in
/-- C9 counterexample: two get_signal calls with identical arguments
(environment, Setup, start point, mutable Setup fields) produce different
output waveforms because an earlier call at a different point left a
different `wpot_old` in the function-static state: after a call at `pt9a`
the second call at `pt9b` triggers the self-repulsion hack at its first
step and returns an all-zero waveform, while from the process-start statics
the same call returns a nonzero waveform. -/
theorem C9_history_counterexample :
    (Sig.get_signal Sig.env9 Sig.setup9 Sig.pt9b
        (Sig.get_signal Sig.env9 Sig.setup9 Sig.pt9a Sig.st0 Sig.sm0).st
        Sig.sm0).out ≠
      (Sig.get_signal Sig.env9 Sig.setup9 Sig.pt9b Sig.st0 Sig.sm0).out := by
  have h1 : (Sig.get_signal Sig.env9 Sig.setup9 Sig.pt9a Sig.st0 Sig.sm0).st =
      ⟨4997 / 5000, 4997 / 5000, 0⟩ := by
    norm_num +decide [Sig.get_signal, Sig.gs_hole, Sig.gs_electron, Sig.gs_sigInit,
      Sig.make_signal, Sig.msLoop, Sig.msVel, Sig.ms_tail, Sig.tailSearch,
      Sig.smearLoop, Sig.collect2pc, Sig.vadd, Sig.vscale, Sig.vlen,
      Sig.WP_THRESH_ELECTRONS, listAdd, Sig.diffusionCoefH, Sig.diffusionCoefE,
      Sig.env9, Sig.setup9, Sig.st0, Sig.sm0, Sig.pt9a, List.range,
      List.range.loop, List.replicate]
  have h2 : (Sig.get_signal Sig.env9 Sig.setup9 Sig.pt9b
      (⟨4997 / 5000, 4997 / 5000, 0⟩ : Sig.Statics) Sig.sm0).out =
      [0, 0, 0, 0, 0] := by
    norm_num +decide [Sig.get_signal, Sig.gs_hole, Sig.gs_electron, Sig.gs_sigInit,
      Sig.make_signal, Sig.msLoop, Sig.msVel, Sig.ms_tail, Sig.tailSearch,
      Sig.smearLoop, Sig.prefixLoop, Sig.gs_convolved, Sig.gs_downsample,
      Sig.collect2pc, Sig.vadd, Sig.vscale, Sig.vlen,
      Sig.WP_THRESH_ELECTRONS, listAdd, Sig.diffusionCoefH, Sig.diffusionCoefE,
      Sig.env9, Sig.setup9, Sig.sm0, Sig.pt9b, List.range, List.range.loop,
      List.replicate, List.range']
  have h3 : (Sig.get_signal Sig.env9 Sig.setup9 Sig.pt9b Sig.st0 Sig.sm0).out =
      [0, 0, -(1 / 6), -(1 / 3), -(1 / 2)] := by
    norm_num +decide [Sig.get_signal, Sig.gs_hole, Sig.gs_electron, Sig.gs_sigInit,
      Sig.make_signal, Sig.msLoop, Sig.msVel, Sig.ms_tail, Sig.tailSearch,
      Sig.smearLoop, Sig.prefixLoop, Sig.gs_convolved, Sig.gs_downsample,
      Sig.collect2pc, Sig.vadd, Sig.vscale, Sig.vlen,
      Sig.WP_THRESH_ELECTRONS, listAdd, Sig.diffusionCoefH, Sig.diffusionCoefE,
      Sig.env9, Sig.setup9, Sig.st0, Sig.sm0, Sig.pt9b, List.range,
      List.range.loop, List.replicate, List.range']
  rw [h1, h2, h3]
  simp
